import Mathlib

/-!
# plugeth-plugins: call-trace transcoder, call-tree builder and VM op recorder

A shallow embedding of

* `packages/parity-trace-rawtransaction/main.go` (`FilterPrecompileCalls`, `GethParity`),
* `packages/subTracer/main.go` (the `TracerResult` call-stack builder),
* `packages/parity-vmtrace-replaytransacitons/main.go` (the `TracerService` op recorder),

followed by theorems about these definitions.

Conventions: Go `string` is `String`; `hexutil.Bytes` and `[]byte` are lists of
byte values; `uint64` and `hexutil.Uint64` values are natural numbers (no
arithmetic is performed on them in the embedded code); `int` is `Int`; a Go
slice is a `List`; a pointer that may be nil is an `Option`.
-/

namespace PlugethPlugins

/-- Go `[]byte` / `hexutil.Bytes`. -/
abbrev Bytes := List Nat

/-! ## parity-trace-rawtransaction -/

/-- Go `type InnerResult struct` (main.go 21-24). -/
structure InnerResult where
  GasUsed : String
  Output : Bytes
  deriving DecidableEq, Repr

/-- Go `type Action struct` (main.go 26-33). -/
structure Action where
  CallType : String
  From : String
  Gas : String
  Input : String
  To : String
  Value : Nat
  deriving DecidableEq, Repr

/-- Go `type ParityResult struct` (main.go 35-42); `Result` is a pointer, nil is `none`;
the field `Type` is written `Typ` (a reserved word). -/
structure ParityResult where
  Action : Action
  Result : Option InnerResult
  Error : String
  SubTraces : Int
  TracerAddress : List Int
  Typ : String
  deriving DecidableEq, Repr

/-- Go `type GethResponse struct` (main.go 77-88); the field `Type` is written `Typ`. -/
inductive GethResponse where
  | mk (Typ From To : String) (Value : Nat) (Gas GasUsed Input : String)
      (Output : Bytes) (Error : String) (Calls : List GethResponse) : GethResponse
  deriving Repr

namespace GethResponse

def Typ : GethResponse → String
  | mk ty _ _ _ _ _ _ _ _ _ => ty

def From : GethResponse → String
  | mk _ fr _ _ _ _ _ _ _ _ => fr

def To : GethResponse → String
  | mk _ _ dst _ _ _ _ _ _ _ => dst

def Value : GethResponse → Nat
  | mk _ _ _ v _ _ _ _ _ _ => v

def Gas : GethResponse → String
  | mk _ _ _ _ g _ _ _ _ _ => g

def GasUsed : GethResponse → String
  | mk _ _ _ _ _ gu _ _ _ _ => gu

def Input : GethResponse → String
  | mk _ _ _ _ _ _ i _ _ _ => i

def Output : GethResponse → Bytes
  | mk _ _ _ _ _ _ _ o _ _ => o

def Error : GethResponse → String
  | mk _ _ _ _ _ _ _ _ e _ => e

def Calls : GethResponse → List GethResponse
  | mk _ _ _ _ _ _ _ _ _ cs => cs

end GethResponse

/-- Go `strings.HasPrefix(s, prefix)`:
`len(s) >= len(prefix) && s[:len(prefix)] == prefix`.  Go compares bytes and the
embedding compares characters; for an ASCII `prefix`, as the one tested in
`FilterPrecompileCalls`, the two agree on UTF-8 text. -/
def HasPrefix (s pfx : String) : Bool :=
  decide (pfx.length ≤ s.length) && (s.data.take pfx.length == pfx.data)

/-- The string literal tested in `FilterPrecompileCalls` (main.go 94). -/
def precompilePrefix : String := "0x000000000000000000000000000000000000"

/-- The condition of the `if` in `FilterPrecompileCalls` (main.go 94):
`!strings.HasPrefix(call.To, "0x00..0") || call.Value != 0`. -/
def keepCall (call : GethResponse) : Bool :=
  !HasPrefix call.To precompilePrefix || call.Value != 0

/-- Go `FilterPrecompileCalls` (main.go 90-99): a loop appending every call
that passes the test to `result`, which starts empty. -/
def FilterPrecompileCalls (calls : List GethResponse) : List GethResponse :=
  calls.foldl (fun result call => if keepCall call then result ++ [call] else result) []

/-- Go `GethParity` (main.go 101-132).  `ToLower` stands for the library function
`strings.ToLower`, which is not part of the repository.  `addr` is the copy of
`address` made with `make`/`copy`; the `for i, call := range calls` loop appends
the entries of the recursive call on `call` with address `append(address, i)`. -/
def GethParity (ToLower : String → String) (gr : GethResponse) (address : List Int)
    (t : String) : List ParityResult :=
  let calls := FilterPrecompileCalls gr.Calls
  let er := if gr.Error = "execution reverted" then "Reverted" else gr.Error
  let ir : Option InnerResult :=
    if gr.Error = "" then some { GasUsed := gr.GasUsed, Output := gr.Output } else none
  let addr := address
  let result : List ParityResult :=
    [] ++ [{ Action := { CallType := ToLower gr.Typ, From := gr.From, Gas := gr.Gas,
                         Input := gr.Input, To := gr.To, Value := gr.Value },
             Result := ir, Error := er, SubTraces := (calls.length : Int),
             TracerAddress := addr, Typ := t }]
  calls.attach.enum.foldl
    (fun result ic => result ++ GethParity ToLower ic.2.1 (address ++ [(ic.1 : Int)]) t) result
termination_by sizeOf gr
decreasing_by
  have key : ∀ (l acc : List GethResponse) (c : GethResponse),
      c ∈ l.foldl (fun result call => if keepCall call then result ++ [call] else result) acc →
        c ∈ acc ∨ c ∈ l := by
    intro l
    induction l with
    | nil => intro acc c h; exact Or.inl h
    | cons x xs ih =>
      intro acc c h
      rw [List.foldl_cons] at h
      rcases ih _ _ h with h1 | h1
      · by_cases hk : keepCall x = true
        · rw [if_pos hk] at h1
          rcases List.mem_append.mp h1 with h2 | h2
          · exact Or.inl h2
          · exact Or.inr (by rw [List.mem_singleton.mp h2]; exact List.mem_cons_self _ _)
        · rw [if_neg hk] at h1
          exact Or.inl h1
      · exact Or.inr (List.mem_cons_of_mem _ h1)
  have hmem : ic.2.1 ∈ gr.Calls := by
    rcases key _ _ _ ic.2.2 with h | h
    · cases h
    · exact h
  have hlt := List.sizeOf_lt_of_mem hmem
  cases gr with
  | mk ty fr dst v g gu i o e cs =>
    simp only [GethResponse.Calls] at hlt
    simp only [GethResponse.mk.sizeOf_spec]
    omega

/-- Go `type OuterResult struct` (main.go 14-19); `StateDiff` and `VMTrace` are
pointers to strings. -/
structure OuterResult where
  Output : Bytes
  StateDiff : Option String
  Trace : List ParityResult
  VMTrace : Option String
  deriving DecidableEq, Repr

/-- Go `APIs.RawTransaction` (main.go 134-175).  The outcomes of the calls to
collaborators outside the repository are parameters: `attach`, `unmarshal` and `sender`
are the errors returned by `ap.stack.Attach()`, `tx.UnmarshalBinary(data)` and
`hs.Sender(&tx)` (nil is `none`), and `gr` is the value that `client.Call` left in `gr`
for `debug_traceCall`, whose own error the function does not look at. -/
def RawTransaction (ToLower : String → String) (attach unmarshal sender : Option String)
    (gr : GethResponse) : Except String OuterResult :=
  match attach with
  | some err => .error err
  | none =>
    match unmarshal with
    | some err => .error err
    | none =>
      match sender with
      | some err => .error err
      | none =>
        let tAddress : List Int := []
        let gp := GethParity ToLower gr tAddress (ToLower gr.Typ)
        .ok { Output := gr.Output, StateDiff := none, Trace := gp, VMTrace := none }

/-- The flat entry that `GethParity` builds for the node `gr` itself (main.go 104-126). -/
def nodeEntry (ToLower : String → String) (gr : GethResponse) (address : List Int)
    (t : String) : ParityResult :=
  { Action := { CallType := ToLower gr.Typ, From := gr.From, Gas := gr.Gas,
                Input := gr.Input, To := gr.To, Value := gr.Value },
    Result := if gr.Error = "" then some { GasUsed := gr.GasUsed, Output := gr.Output } else none,
    Error := if gr.Error = "execution reverted" then "Reverted" else gr.Error,
    SubTraces := ((FilterPrecompileCalls gr.Calls).length : Int),
    TracerAddress := address,
    Typ := t }

mutual
/-- The nodes of a call tree that survive filtering transitively, in pre-order: the
node itself, then, for each child that passes the test of `FilterPrecompileCalls`
(in the original order), the surviving nodes of that child. -/
def survivors : GethResponse → List GethResponse
  | .mk ty fr dst v g gu i o e cs => .mk ty fr dst v g gu i o e cs :: survivorsOfCalls cs
/-- The surviving nodes below a list of sibling calls. -/
def survivorsOfCalls : List GethResponse → List GethResponse
  | [] => []
  | c :: cs => (if keepCall c then survivors c else []) ++ survivorsOfCalls cs
end

mutual
/-- The number of nodes that survive filtering transitively: 1 for the node plus the
count of every child that passes the test of `FilterPrecompileCalls`. -/
def survivingCount : GethResponse → Nat
  | .mk _ _ _ _ _ _ _ _ _ cs => 1 + survivingCountOfCalls cs
/-- The number of surviving nodes below a list of sibling calls. -/
def survivingCountOfCalls : List GethResponse → Nat
  | [] => 0
  | c :: cs => (if keepCall c then survivingCount c else 0) + survivingCountOfCalls cs
end

/-- An ASCII stand-in for the library function `strings.ToLower`, used only to run
`GethParity` on concrete inputs. -/
def lowerASCII (s : String) : String := String.mk (s.data.map Char.toLower)

/-- A root call to the precompile address 4 that transfers no value and has no
sub-calls. -/
def precompileRoot : GethResponse :=
  .mk "CALL" "0x00000000000000000000000000000000000000aa"
    "0x0000000000000000000000000000000000000004" 0 "0x5208" "0x0" "0x" [] "" []

/-- A leaf call from `0xcc` to `0xdd`. -/
def nodeD : GethResponse :=
  .mk "STATICCALL" "0xcc" "0xdd" 0 "0x10" "0x1" "0x" [] "" []

/-- A reverted call from `0xbb` to `0xcc` with the single sub-call `nodeD`. -/
def nodeC : GethResponse :=
  .mk "CALL" "0xbb" "0xcc" 0 "0x20" "0x2" "0x" [] "execution reverted" [nodeD]

/-- A call to the precompile address 1 without value (it has a sub-call, `nodeD`). -/
def nodeP0 : GethResponse :=
  .mk "STATICCALL" "0xbb" "0x0000000000000000000000000000000000000001" 0 "0x30" "0x3" "0x" []
    "" [nodeD]

/-- A failed call to the precompile address 2 that transfers value 1. -/
def nodeP1 : GethResponse :=
  .mk "CALL" "0xbb" "0x0000000000000000000000000000000000000002" 1 "0x30" "0x3" "0x" []
    "out of gas" []

/-- A root call from `0xaa` to `0xbb` with the sub-calls `nodeP0`, `nodeC`, `nodeP1`. -/
def sampleTree : GethResponse :=
  .mk "CALL" "0xaa" "0xbb" 5 "0x40" "0x4" "0x" [1, 2] "" [nodeP0, nodeC, nodeP1]

/-- Whether the trace address `q` is `p` extended by exactly one index. -/
def isChildAddress (p q : List Int) : Bool :=
  decide (q.length = p.length + 1 ∧ p <+: q)

/-! ## subTracer -/

/-- Go `core.Address`, an array of 20 bytes. -/
abbrev Address := List Nat

/-- The zero value of `core.Address`. -/
def zeroAddress : Address := List.replicate 20 0

/-- Go `core.OpCode`, a byte. -/
abbrev OpCode := Nat

namespace SubTracer

/-- Go `type CallStack struct` (subTracer/main.go 43-60).  `Value` is a `*big.Int`
(nil is `none`); the field `Type` is written `Typ`.  The unexported fields
`startTime`, `outOff`, `outLen`, `gasIn`, `gasCost` are never written or read by the
package and are left out. -/
inductive CallStack where
  | mk (Typ : String) (From To : Address) (Value : Option Int) (Gas GasUsed : Nat)
      (Input Output : Bytes) (Time : String) (Calls : List CallStack) (Error : String) :
      CallStack
  deriving Repr

namespace CallStack

def Typ : CallStack → String
  | mk ty _ _ _ _ _ _ _ _ _ _ => ty

def From : CallStack → Address
  | mk _ fr _ _ _ _ _ _ _ _ _ => fr

def To : CallStack → Address
  | mk _ _ dst _ _ _ _ _ _ _ _ => dst

def Value : CallStack → Option Int
  | mk _ _ _ v _ _ _ _ _ _ _ => v

def Gas : CallStack → Nat
  | mk _ _ _ _ g _ _ _ _ _ _ => g

def GasUsed : CallStack → Nat
  | mk _ _ _ _ _ gu _ _ _ _ _ => gu

def Input : CallStack → Bytes
  | mk _ _ _ _ _ _ i _ _ _ _ => i

def Output : CallStack → Bytes
  | mk _ _ _ _ _ _ _ o _ _ _ => o

def Time : CallStack → String
  | mk _ _ _ _ _ _ _ _ tm _ _ => tm

def Calls : CallStack → List CallStack
  | mk _ _ _ _ _ _ _ _ _ cs _ => cs

def Error : CallStack → String
  | mk _ _ _ _ _ _ _ _ _ _ e => e

/-- The assignment `frame.Calls = calls`. -/
def setCalls : CallStack → List CallStack → CallStack
  | mk ty fr dst v g gu i o tm _ e, calls => mk ty fr dst v g gu i o tm calls e

end CallStack

/-- Go `type TracerResult struct` (subTracer/main.go 39-41). -/
structure TracerResult where
  CallStack : List CallStack
  deriving Repr

/-- Go `TracerResult.CaptureStart` (subTracer/main.go 107-109). -/
def CaptureStart (r : TracerResult) (_from _to : Address) (_create : Bool) (_input : Bytes)
    (_gas : Nat) (_value : Option Int) : TracerResult :=
  { r with CallStack := [] }

/-- Go `TracerResult.CaptureState` (subTracer/main.go 111-112): an empty body.  The
`scope` argument, an interface value that no callback of the package reads, is left
out here and in `CaptureFault`. -/
def CaptureState (r : TracerResult) (_pc : Nat) (_op : OpCode) (_gas _cost : Nat)
    (_rData : Bytes) (_depth : Int) (_err : Option String) : TracerResult :=
  r

/-- Go `TracerResult.CaptureFault` (subTracer/main.go 114-115): an empty body. -/
def CaptureFault (r : TracerResult) (_pc : Nat) (_op : OpCode) (_gas _cost : Nat)
    (_depth : Int) (_err : Option String) : TracerResult :=
  r

/-- Go `TracerResult.CaptureEnd` (subTracer/main.go 117-128).  `durationString` stands
for `time.Duration.String`; `events` is the list of values sent so far on the package's
feed, to which `events.Send(r.CallStack[0])` adds one.  The logging call is left out. -/
def CaptureEnd (durationString : Int → String) (r : TracerResult) (events : List CallStack)
    (output : Bytes) (gasUsed : Nat) (t : Int) (_err : Option String) :
    TracerResult × List CallStack :=
  let r1 : TracerResult :=
    { r with CallStack := r.CallStack ++
        [CallStack.mk "" zeroAddress zeroAddress none 0 gasUsed [] output (durationString t)
          [] ""] }
  if h : r1.CallStack.length > 0 then
    (r1, events ++ [r1.CallStack[0]])
  else
    (r1, events)

/-- Go `TracerResult.CaptureEnter` (subTracer/main.go 139-148).  `opString` stands for
`restricted.OpCode(typ).String()`. -/
def CaptureEnter (opString : OpCode → String) (r : TracerResult) (typ : OpCode)
    (from_ to_ : Address) (input : Bytes) (gas : Nat) (_value : Option Int) : TracerResult :=
  { r with CallStack := r.CallStack ++
      [CallStack.mk (opString typ) from_ to_ none gas 0 input [] "" [] ""] }

/-- Go `TracerResult.CaptureExit` (subTracer/main.go 150-158).  The logging calls are
left out. -/
def CaptureExit (r : TracerResult) (_output : Bytes) (_gasUsed : Nat) (_err : Option String) :
    TracerResult :=
  if h : r.CallStack.length > 1 then
    let returnCall := r.CallStack[r.CallStack.length - 1]
    let stack1 := r.CallStack.set (r.CallStack.length - 2)
      (r.CallStack[r.CallStack.length - 2].setCalls
        (r.CallStack[r.CallStack.length - 2].Calls ++ [returnCall]))
    { r with CallStack := stack1.take (r.CallStack.length - 1) }
  else
    r

/-- The events the host delivers to the tracer, with the arguments of the callbacks
(`finish` is `CaptureEnd`). -/
inductive Event where
  | start (from_ to_ : Address) (create : Bool) (input : Bytes) (gas : Nat)
      (value : Option Int)
  | state (pc : Nat) (op : OpCode) (gas cost : Nat) (rData : Bytes) (depth : Int)
      (err : Option String)
  | fault (pc : Nat) (op : OpCode) (gas cost : Nat) (depth : Int) (err : Option String)
  | enter (typ : OpCode) (from_ to_ : Address) (input : Bytes) (gas : Nat)
      (value : Option Int)
  | exit (output : Bytes) (gasUsed : Nat) (err : Option String)
  | finish (output : Bytes) (gasUsed : Nat) (t : Int) (err : Option String)
  deriving Repr

/-- Deliver one event: the tracer and the values sent on the feed, before and after. -/
def deliver (opString : OpCode → String) (durationString : Int → String)
    (w : TracerResult × List CallStack) : Event → TracerResult × List CallStack
  | .start fr dst create input gas value =>
      (CaptureStart w.1 fr dst create input gas value, w.2)
  | .state pc op gas cost rData depth err =>
      (CaptureState w.1 pc op gas cost rData depth err, w.2)
  | .fault pc op gas cost depth err => (CaptureFault w.1 pc op gas cost depth err, w.2)
  | .enter typ fr dst input gas value =>
      (CaptureEnter opString w.1 typ fr dst input gas value, w.2)
  | .exit output gasUsed err => (CaptureExit w.1 output gasUsed err, w.2)
  | .finish output gasUsed t err => CaptureEnd durationString w.1 w.2 output gasUsed t err

/-- Deliver a sequence of events in order. -/
def run (opString : OpCode → String) (durationString : Int → String)
    (w : TracerResult × List CallStack) (evs : List Event) : TracerResult × List CallStack :=
  evs.foldl (deliver opString durationString) w

/-- The frames that a run of `evs` on a tracer obtained from `GetLiveTracer` (an empty
`TracerResult`) sends on a feed that starts empty. -/
def emitted (opString : OpCode → String) (durationString : Int → String)
    (evs : List Event) : List CallStack :=
  (run opString durationString ({ CallStack := [] }, []) evs).2

mutual
/-- The number of nodes of a call tree. -/
def nodeCount : CallStack → Nat
  | .mk _ _ _ _ _ _ _ _ _ cs _ => 1 + nodeCountList cs
/-- The number of nodes of a list of call trees. -/
def nodeCountList : List CallStack → Nat
  | [] => 0
  | c :: cs => nodeCount c + nodeCountList cs
end

/-- The number of `CaptureEnter` events of a sequence. -/
def enterCount : List Event → Nat
  | [] => 0
  | .enter _ _ _ _ _ _ :: es => enterCount es + 1
  | _ :: es => enterCount es

/-- Whether a sequence of events consists of `CaptureEnter`/`CaptureExit` pairs nested
like brackets, starting at nesting depth `d`, possibly interleaved with
`CaptureState`/`CaptureFault`. -/
def balanced : Nat → List Event → Bool
  | d, [] => d == 0
  | d, .enter _ _ _ _ _ _ :: es => balanced (d + 1) es
  | 0, .exit _ _ _ :: _ => false
  | d + 1, .exit _ _ _ :: es => balanced d es
  | d, .state _ _ _ _ _ _ _ :: es => balanced d es
  | d, .fault _ _ _ _ _ _ :: es => balanced d es
  | _, .start _ _ _ _ _ _ :: _ => false
  | _, .finish _ _ _ _ :: _ => false

/-- A validly-nested event sequence: `CaptureStart`, a balanced body, `CaptureEnd`. -/
def validlyNested : List Event → Bool
  | .start _ _ _ _ _ _ :: rest =>
      match rest.getLast? with
      | some (.finish _ _ _ _) => balanced 0 rest.dropLast
      | _ => false
  | _ => false

/-- A stand-in for `restricted.OpCode(typ).String()` on the call opcodes, used only to
run the tracer on concrete events. -/
def sampleOpString (op : OpCode) : String :=
  if op = 241 then "CALL" else if op = 250 then "STATICCALL" else "DELEGATECALL"

/-- A stand-in for `time.Duration.String`, used only to run the tracer on concrete
events; a duration is a count of nanoseconds, and the stand-in agrees with Go on the
durations 0 and 1, the only ones it is applied to. -/
def sampleDurationString (t : Int) : String :=
  if t = 0 then "0s" else "1ns"

def addrA : Address := List.replicate 20 10

def addrB : Address := List.replicate 20 11

def addrC : Address := List.replicate 20 12

def addrD : Address := List.replicate 20 13

/-- The sequence start(A→B), enter(B→C), exit, end. -/
def oneCall : List Event :=
  [.start addrA addrB false [] 100000 (some 0),
   .enter 241 addrB addrC [1] 50000 (some 0),
   .exit [2] 700 none,
   .finish [3] 21000 1 none]

/-- The sequence start(A→B), enter(B→C), exit, enter(B→D), exit, end: two calls made
one after the other by the outermost frame. -/
def twoSiblingCalls : List Event :=
  [.start addrA addrB false [] 100000 (some 0),
   .enter 241 addrB addrC [1] 50000 (some 0),
   .exit [2] 700 none,
   .enter 250 addrB addrD [4] 40000 none,
   .exit [5] 300 none,
   .finish [3] 21000 1 none]

/-- Go `TracerResult.Result` (subTracer/main.go 160-162): `return "", nil`.  The pair is
the returned value and the returned error, nil being `none`. -/
def Result (_r : TracerResult) : String × Option String :=
  ("", none)

/-- The sequence start(A→B), step, end: no call is entered. -/
def noCall : List Event :=
  [.start addrA addrB false [] 100000 (some 0),
   .state 0 96 100000 3 [] 1 none,
   .finish [3] 21000 1 none]

/-- The sequence start(A→B), enter(B→C), enter(C→D), exit with error "out of gas". -/
def failingInnerCall : List Event :=
  [.start addrA addrB false [] 100000 (some 0),
   .enter 241 addrB addrC [1] 50000 (some 0),
   .enter 241 addrC addrD [4] 40000 (some 0),
   .exit [] 40000 (some "out of gas")]

end SubTracer

/-! ## parity-vmtrace-replaytransacitons -/

namespace VMTracer

/-- Go `type Ops struct` (vmtrace main.go 26-31).  `Sub` is a `*VMTrace`: `none` is nil,
`some k` points to the `k`-th allocated `VMTrace`. -/
structure Ops where
  Cost : Nat
  Ex : String
  PC : Nat
  Sub : Option Nat
  deriving DecidableEq, Repr

/-- Go `type VMTrace struct` (vmtrace main.go 20-24); `parent` is a `*VMTrace`. -/
structure VMTrace where
  Code : Bytes
  Ops : List Ops
  parent : Option Nat
  deriving DecidableEq, Repr

/-- Go `type TracerService struct` (vmtrace main.go 107-126).  Of the interface
`core.StateDB` only the method `GetCode` is used; `StateDB` is that method.
`CurrentTrace` is a `*VMTrace`. -/
structure TracerService where
  StateDB : Address → Bytes
  Output : Bytes
  Cost : Nat
  PC : Nat
  Costs : List Nat
  PCs : List Nat
  Greeting : String
  Depth : List Int
  OpCodes : List OpCode
  Ops : List OpCode
  ErrorOps : List OpCode
  GasUsed : List Nat
  Count : Int
  CountTwo : Int
  CountThree : Int
  CountFour : Int
  CountFive : Int
  CurrentTrace : Option Nat

/-- The tracer together with the `VMTrace` values allocated so far; a pointer `k`
denotes the `k`-th element of `heap`. -/
structure Machine where
  heap : List VMTrace
  r : TracerService

/-- The tracer built by the `plugethVMTracer` entry of `Tracers` (vmtrace main.go
63-67): `&TracerService{StateDB: sdb}`, every other field zero. -/
def newTracer (sdb : Address → Bytes) : TracerService :=
  { StateDB := sdb, Output := [], Cost := 0, PC := 0, Costs := [], PCs := [], Greeting := "",
    Depth := [], OpCodes := [], Ops := [], ErrorOps := [], GasUsed := [], Count := 0,
    CountTwo := 0, CountThree := 0, CountFour := 0, CountFive := 0, CurrentTrace := none }

/-- Go `TracerService.CaptureStart` (vmtrace main.go 128-137).  The new `VMTrace` is
allocated at the end of the heap. -/
def CaptureStart (m : Machine) (_from to_ : Address) (_create : Bool) (_input : Bytes)
    (_gas : Nat) (_value : Option Int) : Machine :=
  { heap := m.heap ++ [{ Code := m.r.StateDB to_, Ops := [], parent := none }],
    r := { m.r with
      Greeting := "Goodbuy Horses", OpCodes := [], Ops := [], Depth := [], ErrorOps := [],
      GasUsed := [], Costs := [], CurrentTrace := some m.heap.length } }

/-- Go `TracerService.CaptureState` (vmtrace main.go 138-151).  The `scope` argument,
which is not read, is left out. -/
def CaptureState (m : Machine) (pc : Nat) (op : OpCode) (_gas cost : Nat) (_rData : Bytes)
    (depth : Int) (_err : Option String) : Machine :=
  let r1 : TracerService :=
    if depth = 1 then
      { m.r with OpCodes := m.r.OpCodes ++ [op], Costs := m.r.Costs ++ [cost],
                 PCs := m.r.PCs ++ [pc] }
    else m.r
  { m with r := { r1 with Depth := r1.Depth ++ [depth] } }

/-- Go `TracerService.CaptureFault` (vmtrace main.go 152-154). -/
def CaptureFault (m : Machine) (_pc : Nat) (op : OpCode) (_gas _cost : Nat) (_depth : Int)
    (_err : Option String) : Machine :=
  { m with r := { m.r with ErrorOps := m.r.ErrorOps ++ [op] } }

/-- Go `TracerService.CaptureEnd` (vmtrace main.go 155-158). -/
def CaptureEnd (m : Machine) (output : Bytes) (gasUsed : Nat) (_t : Int)
    (_err : Option String) : Machine :=
  { m with r := { m.r with GasUsed := m.r.GasUsed ++ [gasUsed], Output := output } }

/-- Go `TracerService.CaptureEnter` (vmtrace main.go 159-165).  The statement
`r.CurrentTrace.Ops[len(r.CurrentTrace.Ops)-1].Sub = trace` panics when
`r.CurrentTrace` is nil and when `r.CurrentTrace.Ops` is empty (index -1); a panic is
an `Except.error` carrying the runtime's message.  (A pointer that denotes no
allocated value does not arise in Go; the embedding treats it like nil.) -/
def CaptureEnter (m : Machine) (_typ : OpCode) (_from to_ : Address) (_input : Bytes)
    (_gas : Nat) (_value : Option Int) : Except String Machine :=
  let trace := m.heap.length
  let heap1 := m.heap ++ [{ Code := m.r.StateDB to_, Ops := [], parent := m.r.CurrentTrace }]
  match m.r.CurrentTrace with
  | none => .error "invalid memory address or nil pointer dereference"
  | some cur =>
    match heap1[cur]? with
    | none => .error "invalid memory address or nil pointer dereference"
    | some node =>
      if h : node.Ops.length = 0 then
        .error "index out of range [-1]"
      else
        let last := node.Ops[node.Ops.length - 1]
        let ops1 := node.Ops.set (node.Ops.length - 1) { last with Sub := some trace }
        .ok { heap := heap1.set cur { node with Ops := ops1 },
              r := { m.r with CurrentTrace := some trace } }

/-- Go `TracerService.CaptureExit` (vmtrace main.go 166-168); a nil `r.CurrentTrace`
panics. -/
def CaptureExit (m : Machine) (_output : Bytes) (_gasUsed : Nat) (_err : Option String) :
    Except String Machine :=
  match m.r.CurrentTrace with
  | none => .error "invalid memory address or nil pointer dereference"
  | some cur =>
    match m.heap[cur]? with
    | none => .error "invalid memory address or nil pointer dereference"
    | some node => .ok { m with r := { m.r with CurrentTrace := node.parent } }

/-- Go `TracerService.Result` (vmtrace main.go 169-177): the counters are set and
`return r, nil`.  The first component is the machine afterwards, whose `r` is the
returned tracer; the second is the returned error, nil being `none`. -/
def Result (m : Machine) : Machine × Option String :=
  ({ m with r := { m.r with
      Count := (m.r.OpCodes.length : Int), CountTwo := (m.r.Ops.length : Int),
      CountThree := (m.r.Depth.length : Int), CountFour := (m.r.ErrorOps.length : Int),
      CountFive := (m.r.GasUsed.length : Int) } }, none)

/-- The arguments of one `CaptureState` call. -/
structure StateArgs where
  pc : Nat
  op : OpCode
  gas : Nat
  cost : Nat
  rData : Bytes
  depth : Int
  err : Option String

/-- Deliver a run of `CaptureState` events in order. -/
def captureStates (m : Machine) (steps : List StateArgs) : Machine :=
  steps.foldl (fun m s => CaptureState m s.pc s.op s.gas s.cost s.rData s.depth s.err) m

/-- The callbacks of the recorder that cannot panic, with their arguments (`finish` is
`CaptureEnd`). -/
inductive RecorderEvent where
  | start (from_ to_ : Address) (create : Bool) (input : Bytes) (gas : Nat)
      (value : Option Int)
  | state (s : StateArgs)
  | fault (pc : Nat) (op : OpCode) (gas cost : Nat) (depth : Int) (err : Option String)
  | finish (output : Bytes) (gasUsed : Nat) (t : Int) (err : Option String)

/-- Deliver one event to the recorder. -/
def record (m : Machine) : RecorderEvent → Machine
  | .start fr dst create input gas value => CaptureStart m fr dst create input gas value
  | .state s => CaptureState m s.pc s.op s.gas s.cost s.rData s.depth s.err
  | .fault pc op gas cost depth err => CaptureFault m pc op gas cost depth err
  | .finish output gasUsed t err => CaptureEnd m output gasUsed t err

/-- Deliver a sequence of events to the recorder, in order. -/
def recordAll (m : Machine) (evs : List RecorderEvent) : Machine :=
  evs.foldl record m

/-- The loop of `ReplayTransaction` (vmtrace main.go 86-90), started on the slice
`ops`: for each index `i` it reads `Costs[i]` and `PCs[i]`, which panics when the index
is out of range, and stores them in `ops[i]`. -/
def replayLoop (costs pcs : List Nat) : List Nat → List Ops → Except String (List Ops)
  | [], ops => .ok ops
  | i :: rest, ops =>
    match costs[i]? with
    | none => .error "index out of range"
    | some cost =>
      match pcs[i]? with
      | none => .error "index out of range"
      | some pc =>
        let ops1 := ops.modify (fun o => { o with Cost := cost }) i
        replayLoop costs pcs rest (ops1.modify (fun o => { o with PC := pc }) i)

/-- Lines 86-90 of `ReplayTransaction` (vmtrace main.go): `ops := make([]Ops, tr.Count)`
followed by the loop over `range ops`.  `count`, `costs` and `pcs` are the fields
`Count`, `Costs` and `PCs` of `tr`, whose type is not declared in the package's file.
A negative length makes `make` panic. -/
def replayOps (count : Int) (costs pcs : List Nat) : Except String (List Ops) :=
  if count < 0 then .error "makeslice: len out of range"
  else
    replayLoop costs pcs (List.range count.toNat)
      (List.replicate count.toNat { Cost := 0, Ex := "", PC := 0, Sub := none })

/-- A stand-in for the `GetCode` method of the state database, used only to run the
recorder on concrete events. -/
def sampleStateDB (_a : Address) : Bytes := [96, 0]

/-- Two traces on one tracer: start, a depth-1 step at pc 7, then start again and a
depth-1 step at pc 0. -/
def twoStarts : List RecorderEvent :=
  [.start (List.replicate 20 10) (List.replicate 20 11) false [] 100000 (some 0),
   .state { pc := 7, op := 96, gas := 100000, cost := 3, rData := [], depth := 1, err := none },
   .start (List.replicate 20 10) (List.replicate 20 11) false [] 100000 (some 0),
   .state { pc := 0, op := 96, gas := 100000, cost := 5, rData := [], depth := 1, err := none }]

end VMTracer

/-! ## Theorems: the transcoder -/

theorem foldl_keep_eq (l acc : List GethResponse) :
    l.foldl (fun result call => if keepCall call then result ++ [call] else result) acc
      = acc ++ l.filter keepCall := by
  induction l generalizing acc with
  | nil => simp
  | cons x xs ih =>
    rw [List.foldl_cons, ih]
    by_cases hk : keepCall x = true
    · simp [hk]
    · simp [hk]

theorem FilterPrecompileCalls_eq_filter (calls : List GethResponse) :
    FilterPrecompileCalls calls = calls.filter keepCall := by
  unfold FilterPrecompileCalls
  rw [foldl_keep_eq]
  simp

theorem foldl_append_flatMap {α β : Type} (f : α → List β) (l : List α) (init : List β) :
    l.foldl (fun r x => r ++ f x) init = init ++ l.flatMap f := by
  induction l generalizing init with
  | nil => simp
  | cons x xs ih => rw [List.foldl_cons, ih]; simp

theorem enum_attach_flatMap {α β : Type} (l : List α) (g : Nat → α → List β) :
    l.attach.enum.flatMap (fun ic => g ic.1 ic.2.1) = l.enum.flatMap (fun ic => g ic.1 ic.2) := by
  have h : l.enum = l.attach.enum.map (Prod.map id Subtype.val) := by
    unfold List.enum
    rw [← List.enumFrom_map, List.attach_map_subtype_val]
  rw [h, List.flatMap_map]
  rfl

/-- One unfolding of `GethParity`: the node's own entry, followed by the outputs of
the surviving children, the `i`-th (counting from 0) at address `address ++ [i]`. -/
theorem GethParity_eq (ToLower : String → String) (gr : GethResponse) (address : List Int)
    (t : String) :
    GethParity ToLower gr address t
      = nodeEntry ToLower gr address t ::
          (FilterPrecompileCalls gr.Calls).enum.flatMap
            (fun ic => GethParity ToLower ic.2 (address ++ [(ic.1 : Int)]) t) := by
  rw [GethParity]
  rw [foldl_append_flatMap (fun ic : Nat × {x // x ∈ FilterPrecompileCalls gr.Calls} =>
    GethParity ToLower ic.2.1 (address ++ [(ic.1 : Int)]) t)]
  rw [enum_attach_flatMap (FilterPrecompileCalls gr.Calls)
    (fun i c => GethParity ToLower c (address ++ [(i : Int)]) t)]
  rfl

theorem filter_sampleTree : FilterPrecompileCalls sampleTree.Calls = [nodeC, nodeP1] := by
  rfl

theorem filter_nodeC : FilterPrecompileCalls nodeC.Calls = [nodeD] := by
  rfl

theorem filter_nodeD : FilterPrecompileCalls nodeD.Calls = [] := by
  rfl

theorem filter_nodeP1 : FilterPrecompileCalls nodeP1.Calls = [] := by
  rfl

/-- The output of `GethParity` on `sampleTree`, entry by entry. -/
theorem GethParity_sampleTree (a : List Int) (t : String) :
    GethParity lowerASCII sampleTree a t
      = [nodeEntry lowerASCII sampleTree a t,
         nodeEntry lowerASCII nodeC (a ++ [0]) t,
         nodeEntry lowerASCII nodeD (a ++ [0] ++ [0]) t,
         nodeEntry lowerASCII nodeP1 (a ++ [1]) t] := by
  rw [GethParity_eq, filter_sampleTree]
  simp only [List.enum, List.enumFrom, List.flatMap_cons, List.flatMap_nil]
  rw [GethParity_eq _ nodeC, filter_nodeC, GethParity_eq _ nodeP1, filter_nodeP1]
  simp only [List.enum, List.enumFrom, List.flatMap_cons, List.flatMap_nil]
  rw [GethParity_eq _ nodeD, filter_nodeD]
  rfl

theorem HasPrefix_iff (s pfx : String) : HasPrefix s pfx = true ↔ pfx.data <+: s.data := by
  unfold HasPrefix
  rw [Bool.and_eq_true, decide_eq_true_iff, beq_iff_eq, List.prefix_iff_eq_take]
  constructor
  · rintro ⟨_, h⟩
    exact h.symm
  · intro h
    refine ⟨?_, h.symm⟩
    have hl := congrArg List.length h
    rw [List.length_take] at hl
    show pfx.data.length ≤ s.data.length
    omega

theorem precompilePrefix_eq :
    precompilePrefix = "0x" ++ String.mk (List.replicate 36 '0') := by
  decide

theorem keepCall_iff (c : GethResponse) :
    keepCall c = true ↔
      (¬ ("0x" ++ String.mk (List.replicate 36 '0')).data <+: c.To.data) ∨ c.Value ≠ 0 := by
  unfold keepCall
  rw [← precompilePrefix_eq, Bool.or_eq_true, Bool.not_eq_true', ← HasPrefix_iff]
  simp

/-- C1: `FilterPrecompileCalls` returns exactly the calls, in their original order
and multiplicity, whose `To` does not start with "0x" followed by 36 zeros or whose
`Value` is non-zero.  A call of the input is dropped if and only if its `To` has
that prefix and its `Value` is 0; a call with non-zero value is always kept. -/
theorem FilterPrecompileCalls_spec (calls : List GethResponse) :
    FilterPrecompileCalls calls = calls.filter keepCall
    ∧ (∀ c, keepCall c = true ↔
        ((¬ ("0x" ++ String.mk (List.replicate 36 '0')).data <+: c.To.data) ∨ c.Value ≠ 0))
    ∧ List.Sublist (FilterPrecompileCalls calls) calls
    ∧ (∀ c ∈ calls, c ∉ FilterPrecompileCalls calls ↔
        (("0x" ++ String.mk (List.replicate 36 '0')).data <+: c.To.data ∧ c.Value = 0))
    ∧ (∀ c ∈ calls, c.Value ≠ 0 → c ∈ FilterPrecompileCalls calls) := by
  have hf := FilterPrecompileCalls_eq_filter calls
  refine ⟨hf, keepCall_iff, ?_, ?_, ?_⟩
  · rw [hf]
    exact List.filter_sublist calls
  · intro c hc
    rw [hf, List.mem_filter, keepCall_iff]
    constructor
    · intro h
      by_contra hn
      apply h
      refine ⟨hc, ?_⟩
      by_cases hp : ("0x" ++ String.mk (List.replicate 36 '0')).data <+: c.To.data
      · right
        intro hv
        exact hn ⟨hp, hv⟩
      · left
        exact hp
    · rintro ⟨hp, hv⟩ ⟨_, h⟩
      rcases h with h | h
      · exact h hp
      · exact h hv
  · intro c hc hv
    rw [hf, List.mem_filter, keepCall_iff]
    exact ⟨hc, Or.inr hv⟩

theorem sizeOf_lt_of_mem_Calls {c gr : GethResponse} (h : c ∈ gr.Calls) :
    sizeOf c < sizeOf gr := by
  have hlt := List.sizeOf_lt_of_mem h
  cases gr with
  | mk ty fr dst v g gu i o e cs =>
    simp only [GethResponse.Calls] at hlt
    simp only [GethResponse.mk.sizeOf_spec]
    omega

theorem mem_Calls_of_mem_filter {c gr : GethResponse}
    (h : c ∈ FilterPrecompileCalls gr.Calls) : c ∈ gr.Calls := by
  rw [FilterPrecompileCalls_eq_filter] at h
  exact List.mem_of_mem_filter h

theorem keepCall_of_mem_filter {c : GethResponse} {cs : List GethResponse}
    (h : c ∈ FilterPrecompileCalls cs) : keepCall c = true := by
  rw [FilterPrecompileCalls_eq_filter] at h
  exact (List.mem_filter.mp h).2

/-- Induction over a call tree along the recursion of `GethParity`: a property holds
of every node as soon as it holds of a node whenever it holds of the node's
surviving children. -/
theorem survivor_induction {P : GethResponse → Prop}
    (step : ∀ gr, (∀ c ∈ FilterPrecompileCalls gr.Calls, P c) → P gr) :
    ∀ gr, P gr := by
  suffices H : ∀ n, ∀ gr, sizeOf gr = n → P gr from fun gr => H _ gr rfl
  intro n
  induction n using Nat.strong_induction_on with
  | _ n ih =>
    intro gr hn
    apply step
    intro c hc
    have hlt := sizeOf_lt_of_mem_Calls (mem_Calls_of_mem_filter hc)
    exact ih (sizeOf c) (by omega) c rfl

theorem survivorsOfCalls_eq (cs : List GethResponse) :
    survivorsOfCalls cs = (cs.filter keepCall).flatMap survivors := by
  induction cs with
  | nil => simp [survivorsOfCalls]
  | cons c cs ih =>
    rw [survivorsOfCalls, ih]
    by_cases hk : keepCall c = true
    · simp [hk]
    · simp [hk]

theorem survivors_eq (gr : GethResponse) :
    survivors gr = gr :: (FilterPrecompileCalls gr.Calls).flatMap survivors := by
  cases gr with
  | mk ty fr dst v g gu i o e cs =>
    rw [survivors, survivorsOfCalls_eq, FilterPrecompileCalls_eq_filter]
    rfl

theorem survivingCountOfCalls_eq (cs : List GethResponse) :
    survivingCountOfCalls cs = ((cs.filter keepCall).map survivingCount).sum := by
  induction cs with
  | nil => simp [survivingCountOfCalls]
  | cons c cs ih =>
    rw [survivingCountOfCalls, ih]
    by_cases hk : keepCall c = true
    · simp [hk]
    · simp [hk]

theorem survivingCount_eq (gr : GethResponse) :
    survivingCount gr = 1 + ((FilterPrecompileCalls gr.Calls).map survivingCount).sum := by
  cases gr with
  | mk ty fr dst v g gu i o e cs =>
    rw [survivingCount, survivingCountOfCalls_eq, FilterPrecompileCalls_eq_filter]
    rfl

theorem survivingCount_eq_length (gr : GethResponse) :
    survivingCount gr = (survivors gr).length := by
  induction gr using survivor_induction with
  | step gr ih =>
    rw [survivingCount_eq, survivors_eq, List.length_cons, List.length_flatMap, Nat.add_comm]
    congr 2
    apply List.map_congr_left
    intro c hc
    exact ih c hc

theorem forall₂_flatMap_enumFrom {α β γ : Type} (R : β → γ → Prop) (l : List α)
    (G : Nat → α → List β) (S : α → List γ)
    (h : ∀ c ∈ l, ∀ i, List.Forall₂ R (G i c) (S c)) (n : Nat) :
    List.Forall₂ R ((l.enumFrom n).flatMap (fun ic => G ic.1 ic.2)) (l.flatMap S) := by
  induction l generalizing n with
  | nil => simp
  | cons x xs ih =>
    rw [List.enumFrom_cons, List.flatMap_cons, List.flatMap_cons]
    apply List.rel_append
    · exact h x (List.mem_cons_self _ _) n
    · exact ih (fun c hc i => h c (List.mem_cons_of_mem _ hc) i) (n + 1)

/-- The entries of `GethParity` correspond one-to-one and in order to the surviving
nodes in pre-order: any relation that holds between a node and the entry built for
it (at any address) holds between the output and `survivors`. -/
theorem forall₂_GethParity (ToLower : String → String) (t : String)
    (R : ParityResult → GethResponse → Prop)
    (h : ∀ n a, R (nodeEntry ToLower n a t) n) (gr : GethResponse) :
    ∀ a, List.Forall₂ R (GethParity ToLower gr a t) (survivors gr) := by
  induction gr using survivor_induction with
  | step gr ih =>
    intro a
    rw [GethParity_eq, survivors_eq]
    refine List.Forall₂.cons (h gr a) ?_
    exact forall₂_flatMap_enumFrom R (FilterPrecompileCalls gr.Calls)
      (fun i c => GethParity ToLower c (a ++ [(i : Int)]) t) survivors
      (fun c hc i => ih c hc _) 0

theorem snd_mem_of_mem_enum {α : Type} {l : List α} {ic : Nat × α} (h : ic ∈ l.enum) :
    ic.2 ∈ l := by
  have h2 := (List.mem_enum h).2
  rw [h2]
  exact List.getElem_mem _

/-- Every entry of the output satisfies a property that every node's own entry
satisfies. -/
theorem forall_mem_GethParity (ToLower : String → String) (t : String)
    (Q : ParityResult → Prop) (h : ∀ n a, Q (nodeEntry ToLower n a t)) (gr : GethResponse) :
    ∀ a, ∀ e ∈ GethParity ToLower gr a t, Q e := by
  induction gr using survivor_induction with
  | step gr ih =>
    intro a e he
    rw [GethParity_eq] at he
    rcases List.mem_cons.mp he with he | he
    · rw [he]
      exact h gr a
    · rcases List.mem_flatMap.mp he with ⟨ic, hic, hmem⟩
      exact ih ic.2 (snd_mem_of_mem_enum hic) _ e hmem

/-- C1 on the sub-calls of `sampleTree`: the zero-value precompile call is dropped, the
ordinary call and the value-carrying precompile call are kept, in order. -/
theorem FilterPrecompileCalls_spec_sampleTree :
    FilterPrecompileCalls [nodeP0, nodeC, nodeP1] = [nodeC, nodeP1]
    ∧ FilterPrecompileCalls [nodeP0, nodeC, nodeP1] = [nodeP0, nodeC, nodeP1].filter keepCall
    ∧ keepCall nodeP0 = false ∧ keepCall nodeC = true ∧ keepCall nodeP1 = true :=
  ⟨rfl, (FilterPrecompileCalls_spec [nodeP0, nodeC, nodeP1]).1, rfl, rfl, rfl⟩

/-- C4: in the output of `GethParity` an entry has a nil `Result` if and only if
its `Error` is non-empty; the entry built from a surviving node with a non-empty
error carries no result, and the entry built from a node with an empty error
carries a result holding that node's `GasUsed` and `Output`. -/
theorem GethParity_result_iff_error (ToLower : String → String) (gr : GethResponse)
    (a : List Int) (t : String) :
    (∀ e ∈ GethParity ToLower gr a t, e.Result = none ↔ e.Error ≠ "")
    ∧ List.Forall₂
        (fun e n => (n.Error ≠ "" → e.Result = none) ∧
          (n.Error = "" → e.Result = some { GasUsed := n.GasUsed, Output := n.Output }))
        (GethParity ToLower gr a t) (survivors gr) := by
  constructor
  · apply forall_mem_GethParity ToLower t (fun e => e.Result = none ↔ e.Error ≠ "")
    intro n a
    show (if n.Error = "" then some _ else none) = none ↔
      (if n.Error = "execution reverted" then "Reverted" else n.Error) ≠ ""
    by_cases h0 : n.Error = ""
    · have h1 : ¬ n.Error = "execution reverted" := by rw [h0]; decide
      simp [h0]
    · by_cases h1 : n.Error = "execution reverted"
      · rw [if_neg h0, if_pos h1]
        simp
      · rw [if_neg h0, if_neg h1]
        simp [h0]
  · apply forall₂_GethParity
    intro n a
    constructor
    · intro h0
      show (if n.Error = "" then some _ else none) = none
      rw [if_neg h0]
    · intro h0
      show (if n.Error = "" then some _ else none) = some _
      rw [if_pos h0]

/-- C4 on `sampleTree`: the root and `nodeD` (no error) carry a result with their
`GasUsed` and `Output`; `nodeC` (reverted) and `nodeP1` (out of gas) carry none. -/
theorem GethParity_result_iff_error_sampleTree :
    (GethParity lowerASCII sampleTree [] "call").map (fun e => e.Result)
      = [some { GasUsed := "0x4", Output := [1, 2] }, none,
         some { GasUsed := "0x1", Output := [] }, none]
    ∧ survivors sampleTree = [sampleTree, nodeC, nodeD, nodeP1]
    ∧ (∀ e ∈ GethParity lowerASCII sampleTree [] "call", e.Result = none ↔ e.Error ≠ "") := by
  refine ⟨?_, rfl, (GethParity_result_iff_error lowerASCII sampleTree [] "call").1⟩
  rw [GethParity_sampleTree]
  rfl

/-- C5: the `Error` of the entry that `GethParity` emits for a surviving node, at any
depth, is "Reverted" when the node's error is exactly "execution reverted", and the
node's error string unchanged otherwise (the empty string included). -/
theorem GethParity_error_normalised (ToLower : String → String) (gr : GethResponse)
    (a : List Int) (t : String) :
    List.Forall₂
      (fun e n => (n.Error = "execution reverted" → e.Error = "Reverted") ∧
        (n.Error ≠ "execution reverted" → e.Error = n.Error))
      (GethParity ToLower gr a t) (survivors gr) := by
  apply forall₂_GethParity
  intro n a
  constructor
  · intro h1
    show (if n.Error = "execution reverted" then "Reverted" else n.Error) = "Reverted"
    rw [if_pos h1]
  · intro h1
    show (if n.Error = "execution reverted" then "Reverted" else n.Error) = n.Error
    rw [if_neg h1]

/-- C5 on `sampleTree`: "execution reverted" at depth 1 becomes "Reverted"; the empty
error and "out of gas" pass unchanged. -/
theorem GethParity_error_normalised_sampleTree :
    (GethParity lowerASCII sampleTree [] "call").map (fun e => e.Error)
      = ["", "Reverted", "", "out of gas"]
    ∧ (survivors sampleTree).map (fun n => n.Error)
      = ["", "execution reverted", "", "out of gas"]
    ∧ List.Forall₂
        (fun e n => (n.Error = "execution reverted" → e.Error = "Reverted") ∧
          (n.Error ≠ "execution reverted" → e.Error = n.Error))
        (GethParity lowerASCII sampleTree [] "call") (survivors sampleTree) := by
  refine ⟨?_, rfl, GethParity_error_normalised lowerASCII sampleTree [] "call"⟩
  rw [GethParity_sampleTree]
  rfl

/-- C6: the length of the output of `GethParity` is the number of nodes that survive
filtering transitively: 1 for the root plus the count of each child that passes
`FilterPrecompileCalls` (nothing below a filtered child is counted). -/
theorem GethParity_length (ToLower : String → String) (gr : GethResponse)
    (a : List Int) (t : String) :
    (GethParity ToLower gr a t).length = survivingCount gr
    ∧ survivingCount gr = 1 + ((FilterPrecompileCalls gr.Calls).map survivingCount).sum := by
  refine ⟨?_, survivingCount_eq gr⟩
  rw [survivingCount_eq_length]
  exact (forall₂_GethParity ToLower t (fun _ _ => True) (fun _ _ => trivial) gr a).length_eq

/-- C6 on `sampleTree`: six nodes, of which the filtered `nodeP0` and the copy of
`nodeD` below it are not counted; the output has four entries. -/
theorem GethParity_length_sampleTree :
    (GethParity lowerASCII sampleTree [] "call").length = 4
    ∧ survivingCount sampleTree = 4 := by
  have h := (GethParity_length lowerASCII sampleTree [] "call").1
  have hc : survivingCount sampleTree = 4 := by decide
  rw [hc] at h
  exact ⟨h, hc⟩

/-- C13: the entries of the output of `GethParity` correspond one-to-one and in order
to the surviving nodes in pre-order (a node, then the surviving nodes of each of its
surviving children in their original order): the action of the entry carries the
`From`, `To`, `Gas`, `Input` and `Value` of its node unchanged, and its `CallType` is
the node's own `Type` lower-cased. -/
theorem GethParity_actions (ToLower : String → String) (gr : GethResponse)
    (a : List Int) (t : String) :
    List.Forall₂
        (fun e n => e.Action.From = n.From ∧ e.Action.To = n.To ∧ e.Action.Gas = n.Gas
          ∧ e.Action.Input = n.Input ∧ e.Action.Value = n.Value
          ∧ e.Action.CallType = ToLower n.Typ)
        (GethParity ToLower gr a t) (survivors gr)
    ∧ survivors gr = gr :: (FilterPrecompileCalls gr.Calls).flatMap survivors := by
  refine ⟨?_, survivors_eq gr⟩
  apply forall₂_GethParity
  intro n a
  exact ⟨rfl, rfl, rfl, rfl, rfl, rfl⟩

/-- C13 on `sampleTree`: the actions of the four entries, in output order. -/
theorem GethParity_actions_sampleTree :
    (GethParity lowerASCII sampleTree [] "call").map (fun e => e.Action)
      = [{ CallType := "call", From := "0xaa", Gas := "0x40", Input := "0x",
           To := "0xbb", Value := 5 },
         { CallType := "call", From := "0xbb", Gas := "0x20", Input := "0x",
           To := "0xcc", Value := 0 },
         { CallType := "staticcall", From := "0xcc", Gas := "0x10", Input := "0x",
           To := "0xdd", Value := 0 },
         { CallType := "call", From := "0xbb", Gas := "0x30", Input := "0x",
           To := "0x0000000000000000000000000000000000000002", Value := 1 }]
    ∧ List.Forall₂
        (fun e n => e.Action.From = n.From ∧ e.Action.To = n.To ∧ e.Action.Gas = n.Gas
          ∧ e.Action.Input = n.Input ∧ e.Action.Value = n.Value
          ∧ e.Action.CallType = lowerASCII n.Typ)
        (GethParity lowerASCII sampleTree [] "call") (survivors sampleTree) := by
  refine ⟨?_, (GethParity_actions lowerASCII sampleTree [] "call").1⟩
  rw [GethParity_sampleTree]
  rfl

/-- C14: every entry of the output of `GethParity`, at every depth, has `Type` equal to
the type string `t` supplied by the caller, whatever the `Type` of its own node; when
`RawTransaction` succeeds, every entry of its trace has as `Type` the lower-cased
`Type` of the outermost call. -/
theorem GethParity_uniform_type (ToLower : String → String) (gr : GethResponse)
    (a : List Int) (t : String) :
    List.Forall₂ (fun e _ => e.Typ = t) (GethParity ToLower gr a t) (survivors gr)
    ∧ (∀ e ∈ GethParity ToLower gr a t, e.Typ = t)
    ∧ (∀ (attach unmarshal sender : Option String) (res : OuterResult),
        RawTransaction ToLower attach unmarshal sender gr = .ok res →
          res.Trace = GethParity ToLower gr [] (ToLower gr.Typ)
          ∧ ∀ e ∈ res.Trace, e.Typ = ToLower gr.Typ) := by
  have hall : ∀ (a : List Int) (t : String), ∀ e ∈ GethParity ToLower gr a t, e.Typ = t :=
    fun a t => forall_mem_GethParity ToLower t (fun e => e.Typ = t) (fun _ _ => rfl) gr a
  refine ⟨forall₂_GethParity ToLower t _ (fun _ _ => rfl) gr a, hall a t, ?_⟩
  intro attach unmarshal sender res hres
  unfold RawTransaction at hres
  cases attach with
  | some err => simp at hres
  | none =>
    cases unmarshal with
    | some err => simp at hres
    | none =>
      cases sender with
      | some err => simp at hres
      | none =>
        simp only [Except.ok.injEq] at hres
        subst hres
        exact ⟨rfl, hall [] (ToLower gr.Typ)⟩

/-- C14 on `sampleTree`: the entry of `nodeD`, whose own type is STATICCALL, has the
type of the outermost call, and so has every entry of the trace of `RawTransaction`. -/
theorem GethParity_uniform_type_sampleTree :
    (GethParity lowerASCII sampleTree [] (lowerASCII sampleTree.Typ)).map (fun e => e.Typ)
      = ["call", "call", "call", "call"]
    ∧ RawTransaction lowerASCII none none none sampleTree
        = .ok { Output := [1, 2], StateDiff := none,
                Trace := GethParity lowerASCII sampleTree [] "call",
                VMTrace := none }
    ∧ (∀ e ∈ GethParity lowerASCII sampleTree [] (lowerASCII sampleTree.Typ),
        e.Typ = lowerASCII sampleTree.Typ) := by
  refine ⟨?_, rfl, (GethParity_uniform_type lowerASCII sampleTree []
    (lowerASCII sampleTree.Typ)).2.1⟩
  rw [GethParity_sampleTree]
  rfl

theorem GethParity_kept (ToLower : String → String) (t : String) (gr : GethResponse) :
    keepCall gr = true → ∀ a, ∀ e ∈ GethParity ToLower gr a t,
      ¬ (("0x" ++ String.mk (List.replicate 36 '0')).data <+: e.Action.To.data
          ∧ e.Action.Value = 0) := by
  induction gr using survivor_induction with
  | step gr ih =>
    intro hk a e he
    rw [GethParity_eq] at he
    rcases List.mem_cons.mp he with he | he
    · rw [he]
      rintro ⟨hp, hv⟩
      rcases (keepCall_iff gr).mp hk with h | h
      · exact h hp
      · exact h hv
    · rcases List.mem_flatMap.mp he with ⟨ic, hic, hmem⟩
      have hc := snd_mem_of_mem_enum hic
      exact ih ic.2 hc (keepCall_of_mem_filter hc) _ e hmem

/-- C9 (as the code has it): no entry of the output of `GethParity` other than the
first one, which is the root's own entry, has an action whose `To` starts with "0x"
followed by 36 zeros together with a `Value` of 0. -/
theorem GethParity_tail_no_precompile (ToLower : String → String) (gr : GethResponse)
    (a : List Int) (t : String) :
    ∀ e ∈ (GethParity ToLower gr a t).tail,
      ¬ (("0x" ++ String.mk (List.replicate 36 '0')).data <+: e.Action.To.data
          ∧ e.Action.Value = 0) := by
  intro e he
  rw [GethParity_eq, List.tail_cons] at he
  rcases List.mem_flatMap.mp he with ⟨ic, hic, hmem⟩
  have hc := snd_mem_of_mem_enum hic
  exact GethParity_kept ToLower t ic.2 (keepCall_of_mem_filter hc) _ e hmem

/-- C9 (as the code has it) on `sampleTree`: the entry of the value-carrying call to the
precompile address 2 is in the tail of the output, and it is not a zero-value
precompile call. -/
theorem GethParity_tail_no_precompile_sampleTree :
    nodeEntry lowerASCII nodeP1 [1] "call" ∈ (GethParity lowerASCII sampleTree [] "call").tail
    ∧ ¬ (("0x" ++ String.mk (List.replicate 36 '0')).data
            <+: (nodeEntry lowerASCII nodeP1 [1] "call").Action.To.data
          ∧ (nodeEntry lowerASCII nodeP1 [1] "call").Action.Value = 0) := by
  have hmem : nodeEntry lowerASCII nodeP1 [1] "call"
      ∈ (GethParity lowerASCII sampleTree [] "call").tail := by
    rw [GethParity_sampleTree]
    simp
  exact ⟨hmem, GethParity_tail_no_precompile lowerASCII sampleTree [] "call" _ hmem⟩

/-- C9 fails for the root: the root is never filtered, so a root call to a precompile
address with value 0 appears in the output. -/
theorem GethParity_root_precompile_emitted :
    ∃ e ∈ GethParity lowerASCII precompileRoot [] "call",
      ("0x" ++ String.mk (List.replicate 36 '0')).data <+: e.Action.To.data
        ∧ e.Action.Value = 0 := by
  refine ⟨nodeEntry lowerASCII precompileRoot [] "call", ?_, ?_, ?_⟩
  · rw [GethParity_eq]
    exact List.mem_cons_self _ _
  · exact (HasPrefix_iff _ _).mp (by decide)
  · rfl

theorem GethParity_address_extends (ToLower : String → String) (t : String)
    (gr : GethResponse) :
    ∀ a, ∀ e ∈ GethParity ToLower gr a t, a <+: e.TracerAddress := by
  induction gr using survivor_induction with
  | step gr ih =>
    intro a e he
    rw [GethParity_eq] at he
    rcases List.mem_cons.mp he with he | he
    · rw [he]
      exact List.prefix_refl a
    · rcases List.mem_flatMap.mp he with ⟨ic, hic, hmem⟩
      exact (List.prefix_append a _).trans (ih ic.2 (snd_mem_of_mem_enum hic) _ e hmem)

theorem GethParity_tail_longer (ToLower : String → String) (t : String)
    (gr : GethResponse) (a : List Int) :
    ∀ e ∈ (GethParity ToLower gr a t).tail, a.length + 1 ≤ e.TracerAddress.length := by
  intro e he
  rw [GethParity_eq, List.tail_cons] at he
  rcases List.mem_flatMap.mp he with ⟨ic, hic, hmem⟩
  have h := (GethParity_address_extends ToLower t ic.2 _ e hmem).length_le
  rw [List.length_append] at h
  exact h

theorem GethParity_head_address (ToLower : String → String) (t : String)
    (gr : GethResponse) (a : List Int) :
    (GethParity ToLower gr a t).map (fun e => e.TracerAddress)
      = a :: ((GethParity ToLower gr a t).tail).map (fun e => e.TracerAddress) := by
  rw [GethParity_eq]
  rfl

/-- Among the addresses emitted for a node at address `b` whose length is
`a.length + 1`, only the node's own address can be a one-index extension of `a`. -/
theorem filter_child_block (ToLower : String → String) (t : String)
    (c : GethResponse) (a : List Int) (i : Int) :
    ((GethParity ToLower c (a ++ [i]) t).map (fun e => e.TracerAddress)).filter
      (isChildAddress a) = [a ++ [i]] := by
  rw [GethParity_head_address, List.filter_cons]
  have h1 : isChildAddress a (a ++ [i]) = true := by
    unfold isChildAddress
    rw [decide_eq_true_iff]
    exact ⟨by simp, List.prefix_append a _⟩
  rw [if_pos h1]
  congr 1
  rw [List.filter_eq_nil_iff]
  intro q hq
  rcases List.mem_map.mp hq with ⟨e, he, rfl⟩
  have hlen := GethParity_tail_longer ToLower t c (a ++ [i]) e he
  rw [List.length_append] at hlen
  unfold isChildAddress
  rw [decide_eq_true_iff]
  rintro ⟨h, _⟩
  simp at hlen
  omega

theorem flatMap_enumFrom_single {α β : Type} (F : Nat × α → List β) (l : List α) :
    ∀ (n i : Nat) (c : α), (i, c) ∈ l.enumFrom n →
      (∀ jc ∈ l.enumFrom n, jc.1 ≠ i → F jc = []) →
      (l.enumFrom n).flatMap F = F (i, c) := by
  induction l with
  | nil => intro n i c h; simp at h
  | cons x xs ih =>
    intro n i c hmem hF
    rw [List.enumFrom_cons] at hmem hF ⊢
    rw [List.flatMap_cons]
    rcases List.mem_cons.mp hmem with h | h
    · have htail : (xs.enumFrom (n + 1)).flatMap F = [] := by
        rw [List.flatMap_eq_nil_iff]
        intro jc hjc
        apply hF jc (List.mem_cons_of_mem _ hjc)
        have hj := (List.mem_enumFrom (x := jc.2) (i := jc.1) hjc).1
        have hi : i = n := congrArg Prod.fst h
        omega
      rw [htail, List.append_nil, h]
    · have hi := (List.mem_enumFrom h).1
      have hx : F (n, x) = [] := by
        apply hF (n, x) (List.mem_cons_self _ _)
        show n ≠ i
        omega
      rw [hx, List.nil_append]
      exact ih (n + 1) i c h (fun jc hjc hne => hF jc (List.mem_cons_of_mem _ hjc) hne)

theorem flatMap_singleton_map {α β : Type} (f : α → β) (l : List α) :
    l.flatMap (fun x => [f x]) = l.map f := by
  induction l with
  | nil => rfl
  | cons x xs ih => rw [List.flatMap_cons, ih]; rfl

theorem GethParity_map_address (ToLower : String → String) (t : String)
    (gr : GethResponse) (a : List Int) :
    (GethParity ToLower gr a t).map (fun e => e.TracerAddress)
      = a :: (FilterPrecompileCalls gr.Calls).enum.flatMap
          (fun ic => (GethParity ToLower ic.2 (a ++ [(ic.1 : Int)]) t).map
            (fun e => e.TracerAddress)) := by
  rw [GethParity_eq, List.map_cons, List.map_flatMap]
  rfl

/-- In the whole output, the addresses that extend the address of an entry by one
index are, in output order, that address followed by 0, 1, ..., `SubTraces - 1`. -/
theorem GethParity_children_addresses (ToLower : String → String) (t : String)
    (gr : GethResponse) :
    ∀ a, ∀ e ∈ GethParity ToLower gr a t,
      ((GethParity ToLower gr a t).map (fun e => e.TracerAddress)).filter
          (isChildAddress e.TracerAddress)
        = (List.range e.SubTraces.toNat).map (fun i : Nat => e.TracerAddress ++ [(i : Int)]) := by
  induction gr using survivor_induction with
  | step gr ih =>
    intro a e he
    rw [GethParity_map_address]
    rw [GethParity_eq] at he
    rcases List.mem_cons.mp he with he | he
    · rw [he]
      show List.filter (isChildAddress a) _ =
        (List.range ((FilterPrecompileCalls gr.Calls).length : Int).toNat).map
          (fun i : Nat => a ++ [(i : Int)])
      have h0 : ¬ isChildAddress a a = true := by
        unfold isChildAddress
        rw [decide_eq_true_iff]
        rintro ⟨h, _⟩
        omega
      rw [List.filter_cons, if_neg h0, List.filter_flatMap, Int.toNat_ofNat]
      have hblock : ∀ ic : Nat × GethResponse,
          List.filter (isChildAddress a)
            ((GethParity ToLower ic.2 (a ++ [(ic.1 : Int)]) t).map (fun e => e.TracerAddress))
            = [a ++ [(ic.1 : Int)]] :=
        fun ic => filter_child_block ToLower t ic.2 a ic.1
      simp only [hblock]
      rw [flatMap_singleton_map (fun ic : Nat × GethResponse => a ++ [(ic.1 : Int)]),
        ← List.enum_map_fst (FilterPrecompileCalls gr.Calls), List.map_map]
      rfl
    · rcases List.mem_flatMap.mp he with ⟨ic, hic, hmem⟩
      have hp := GethParity_address_extends ToLower t ic.2 _ e hmem
      have hplen := hp.length_le
      rw [List.length_append, List.length_singleton] at hplen
      have h0 : ¬ isChildAddress e.TracerAddress a = true := by
        unfold isChildAddress
        rw [decide_eq_true_iff]
        rintro ⟨h, _⟩
        omega
      rw [List.filter_cons, if_neg h0, List.filter_flatMap]
      rw [← ih ic.2 (snd_mem_of_mem_enum hic) _ e hmem]
      apply flatMap_enumFrom_single
        (fun jc : Nat × GethResponse => List.filter (isChildAddress e.TracerAddress)
          ((GethParity ToLower jc.2 (a ++ [(jc.1 : Int)]) t).map (fun e => e.TracerAddress)))
        (FilterPrecompileCalls gr.Calls) 0 ic.1 ic.2 hic
      intro jc _ hne
      rw [List.filter_eq_nil_iff]
      intro q hq hchild
      rcases List.mem_map.mp hq with ⟨e2, he2, rfl⟩
      have hq2 := GethParity_address_extends ToLower t jc.2 _ e2 he2
      unfold isChildAddress at hchild
      rw [decide_eq_true_iff] at hchild
      have hi : a ++ [(ic.1 : Int)] <+: e2.TracerAddress := hp.trans hchild.2
      have hpre := List.prefix_of_prefix_length_le hi hq2 (by simp)
      have heq := hpre.eq_of_length (by simp)
      have h1 := List.append_cancel_left heq
      simp at h1
      exact hne h1.symm

/-- C2: in the output of `GethParity` on a node with trace address `p`, the first
entry is the node's own: it carries address `p` and reports as `SubTraces` the number
`n` of the node's children that survive the precompile filter.  It is followed by the
blocks of the surviving children, in order, the `i`-th (from 0) being the output of
`GethParity` on that child with address `p ++ [i]`, so that its first entry carries
the address `p ++ [i]`.  Every entry at every depth reports the number of surviving
children of its node, and the addresses in the whole output that extend an entry's
address by one index are, in output order, that address followed by 0, 1, ...,
`SubTraces - 1`: indices start at 0, have no gaps and are assigned after filtering. -/
theorem GethParity_trace_addresses (ToLower : String → String) (gr : GethResponse)
    (p : List Int) (t : String) :
    (∃ e, GethParity ToLower gr p t
          = e :: (FilterPrecompileCalls gr.Calls).enum.flatMap
              (fun ic => GethParity ToLower ic.2 (p ++ [(ic.1 : Int)]) t)
        ∧ e.TracerAddress = p
        ∧ e.SubTraces = ((FilterPrecompileCalls gr.Calls).length : Int))
    ∧ (∀ (i : Nat) (c : GethResponse), (FilterPrecompileCalls gr.Calls)[i]? = some c →
        ∃ e rest, GethParity ToLower c (p ++ [(i : Int)]) t = e :: rest
          ∧ e.TracerAddress = p ++ [(i : Int)]
          ∧ e.SubTraces = ((FilterPrecompileCalls c.Calls).length : Int))
    ∧ List.Forall₂
        (fun e n => e.SubTraces = ((FilterPrecompileCalls n.Calls).length : Int))
        (GethParity ToLower gr p t) (survivors gr)
    ∧ (∀ e ∈ GethParity ToLower gr p t,
        ((GethParity ToLower gr p t).map (fun e => e.TracerAddress)).filter
            (isChildAddress e.TracerAddress)
          = (List.range e.SubTraces.toNat).map
              (fun i : Nat => e.TracerAddress ++ [(i : Int)])) := by
  refine ⟨⟨nodeEntry ToLower gr p t, GethParity_eq ToLower gr p t, rfl, rfl⟩, ?_, ?_, ?_⟩
  · intro i c _
    exact ⟨nodeEntry ToLower c (p ++ [(i : Int)]) t, _, GethParity_eq ToLower c _ t, rfl, rfl⟩
  · exact forall₂_GethParity ToLower t _ (fun _ _ => rfl) gr p
  · exact GethParity_children_addresses ToLower t gr p

/-- C2 on `sampleTree`: the filtered first child consumes no index; the addresses
are `[]`, `[0]`, `[0,0]`, `[1]` with `SubTraces` 2, 1, 0, 0. -/
theorem GethParity_trace_addresses_sampleTree :
    (GethParity lowerASCII sampleTree [] "call").map (fun e => (e.TracerAddress, e.SubTraces))
      = [([], 2), ([0], 1), ([0, 0], 0), ([1], 0)]
    ∧ List.Forall₂
        (fun e n => e.SubTraces = ((FilterPrecompileCalls n.Calls).length : Int))
        (GethParity lowerASCII sampleTree [] "call") (survivors sampleTree) := by
  refine ⟨?_, (GethParity_trace_addresses lowerASCII sampleTree [] "call").2.2.1⟩
  rw [GethParity_sampleTree]
  rfl

theorem pairwise_fst_enumFrom {α : Type} (l : List α) :
    ∀ n : Nat, List.Pairwise (fun p q : Nat × α => p.1 < q.1) (l.enumFrom n) := by
  induction l with
  | nil => intro n; exact List.Pairwise.nil
  | cons x xs ih =>
    intro n
    rw [List.enumFrom_cons, List.pairwise_cons]
    refine ⟨?_, ih (n + 1)⟩
    intro q hq
    have h := (List.mem_enumFrom (x := q.2) (i := q.1) hq).1
    show n < q.1
    omega

/-- An address is lexicographically below every address that extends it by at least
one index. -/
theorem lex_of_extends (a q : List Int) (i : Int) (h : a ++ [i] <+: q) :
    List.Lex (fun x y : Int => x < y) a q := by
  obtain ⟨r, hr⟩ := h
  rw [← hr, List.append_assoc]
  have h0 : List.Lex (fun x y : Int => x < y) [] ([i] ++ r) := List.Lex.nil
  have h1 := List.Lex.append_left (fun x y : Int => x < y) h0 a
  rw [List.append_nil] at h1
  exact h1

/-- Addresses below an earlier sibling are lexicographically below addresses below a
later sibling. -/
theorem lex_of_siblings (a x y : List Int) (i j : Int) (hij : i < j)
    (hx : a ++ [i] <+: x) (hy : a ++ [j] <+: y) :
    List.Lex (fun x y : Int => x < y) x y := by
  obtain ⟨r, hr⟩ := hx
  obtain ⟨r2, hr2⟩ := hy
  rw [← hr, ← hr2, List.append_assoc, List.append_assoc]
  apply List.Lex.append_left
  exact List.Lex.rel hij

theorem GethParity_addresses_pairwise (ToLower : String → String) (t : String)
    (gr : GethResponse) :
    ∀ a, List.Pairwise (List.Lex (fun x y : Int => x < y))
      ((GethParity ToLower gr a t).map (fun e => e.TracerAddress)) := by
  induction gr using survivor_induction with
  | step gr ih =>
    intro a
    rw [GethParity_map_address, List.pairwise_cons]
    constructor
    · intro q hq
      rcases List.mem_flatMap.mp hq with ⟨ic, _, hmem⟩
      rcases List.mem_map.mp hmem with ⟨e, he, rfl⟩
      exact lex_of_extends a _ _ (GethParity_address_extends ToLower t ic.2 _ e he)
    · rw [List.pairwise_flatMap]
      constructor
      · intro ic hic
        exact ih ic.2 (snd_mem_of_mem_enum hic) _
      · apply List.Pairwise.imp _ (pairwise_fst_enumFrom (FilterPrecompileCalls gr.Calls) 0)
        intro p q hpq x hx y hy
        rcases List.mem_map.mp hx with ⟨e1, he1, rfl⟩
        rcases List.mem_map.mp hy with ⟨e2, he2, rfl⟩
        exact lex_of_siblings a _ _ (p.1 : Int) (q.1 : Int) (by exact_mod_cast hpq)
          (GethParity_address_extends ToLower t p.2 _ e1 he1)
          (GethParity_address_extends ToLower t q.2 _ e2 he2)

theorem lex_lt_irrefl (l : List Int) : ¬ List.Lex (fun x y : Int => x < y) l l := by
  induction l with
  | nil => intro h; cases h
  | cons x xs ih =>
    intro h
    cases h with
    | cons h1 => exact ih h1
    | rel h1 => exact lt_irrefl x h1

/-- C18: the trace addresses of the output of `GethParity`, read in output order, are
strictly increasing in the lexicographic order (an address comes before its
extensions): every earlier address is below every later one, and so each is below its
successor.  The first address is the starting address `a`, the addresses are pairwise
distinct, and each one extends `a`. -/
theorem GethParity_addresses_increasing (ToLower : String → String) (gr : GethResponse)
    (a : List Int) (t : String) :
    List.Pairwise (List.Lex (fun x y : Int => x < y))
        ((GethParity ToLower gr a t).map (fun e => e.TracerAddress))
    ∧ List.Chain' (List.Lex (fun x y : Int => x < y))
        ((GethParity ToLower gr a t).map (fun e => e.TracerAddress))
    ∧ ((GethParity ToLower gr a t).map (fun e => e.TracerAddress)).head? = some a
    ∧ ((GethParity ToLower gr a t).map (fun e => e.TracerAddress)).Nodup
    ∧ (∀ e ∈ GethParity ToLower gr a t, a <+: e.TracerAddress) := by
  have hp := GethParity_addresses_pairwise ToLower t gr a
  refine ⟨hp, List.Pairwise.chain' hp, ?_, ?_, GethParity_address_extends ToLower t gr a⟩
  · rw [GethParity_map_address]
    rfl
  · apply List.Pairwise.imp _ hp
    intro x y hxy hne
    rw [hne] at hxy
    exact lex_lt_irrefl y hxy

/-- C18 on `sampleTree` from the starting address `[7]`: the addresses are `[7]`,
`[7,0]`, `[7,0,0]`, `[7,1]`, increasing in the lexicographic order. -/
theorem GethParity_addresses_increasing_sampleTree :
    (GethParity lowerASCII sampleTree [7] "call").map (fun e => e.TracerAddress)
      = [[7], [7, 0], [7, 0, 0], [7, 1]]
    ∧ List.Pairwise (List.Lex (fun x y : Int => x < y))
        ((GethParity lowerASCII sampleTree [7] "call").map (fun e => e.TracerAddress)) := by
  refine ⟨?_, (GethParity_addresses_increasing lowerASCII sampleTree [7] "call").1⟩
  rw [GethParity_sampleTree]
  rfl

/-! ## Theorems: subTracer -/

namespace SubTracer

/-- `CaptureExit` on a stack of at least two frames: the top frame is removed and
appended to the `Calls` of the frame below it. -/
theorem CaptureExit_two (s : List CallStack) (parent top : CallStack) (output : Bytes)
    (gasUsed : Nat) (err : Option String) :
    (CaptureExit { CallStack := s ++ [parent, top] } output gasUsed err).CallStack
      = s ++ [parent.setCalls (parent.Calls ++ [top])] := by
  have hlen : (s ++ [parent, top]).length > 1 := by simp
  have h1 : ∀ h : s.length < (s ++ [parent, top]).length,
      (s ++ [parent, top])[s.length] = parent := by
    intro h
    rw [List.getElem_append_right (Nat.le_refl _)]
    simp
  have h2 : ∀ h : s.length + 1 < (s ++ [parent, top]).length,
      (s ++ [parent, top])[s.length + 1] = top := by
    intro h
    rw [List.getElem_append_right (Nat.le_succ _)]
    simp
  unfold CaptureExit
  rw [dif_pos hlen]
  simp [h1, h2, List.take_append_eq_append_take]

/-- `CaptureExit` on a stack of at most one frame changes nothing. -/
theorem CaptureExit_short (r : TracerResult) (output : Bytes) (gasUsed : Nat)
    (err : Option String) (h : r.CallStack.length ≤ 1) :
    CaptureExit r output gasUsed err = r := by
  unfold CaptureExit
  rw [dif_neg (by omega)]

theorem nodeCountList_append (l₁ l₂ : List CallStack) :
    nodeCountList (l₁ ++ l₂) = nodeCountList l₁ + nodeCountList l₂ := by
  induction l₁ with
  | nil => simp [nodeCountList]
  | cons x xs ih => simp [nodeCountList, ih, Nat.add_assoc]

theorem nodeCount_eq (f : CallStack) : nodeCount f = 1 + nodeCountList f.Calls := by
  cases f
  rfl

theorem setCalls_Calls (f : CallStack) (cs : List CallStack) : (f.setCalls cs).Calls = cs := by
  cases f
  rfl

/-- Moving the top frame into the `Calls` of the frame below keeps the number of nodes
held by the stack. -/
theorem nodeCountList_exit (s : List CallStack) (parent top : CallStack) :
    nodeCountList (s ++ [parent.setCalls (parent.Calls ++ [top])])
      = nodeCountList (s ++ [parent, top]) := by
  rw [nodeCountList_append, nodeCountList_append]
  simp only [nodeCountList]
  rw [nodeCount_eq (parent.setCalls _), setCalls_Calls, nodeCountList_append,
    nodeCount_eq parent]
  simp only [nodeCountList]
  omega

theorem exists_two_top (S : List CallStack) (h : 2 ≤ S.length) :
    ∃ s parent top, S = s ++ [parent, top] := by
  rcases List.eq_nil_or_concat S with h0 | ⟨S1, top, h1⟩
  · rw [h0] at h
    simp at h
  · rcases List.eq_nil_or_concat S1 with h2 | ⟨s, parent, h3⟩
    · rw [h1, h2] at h
      simp at h
    · refine ⟨s, parent, top, ?_⟩
      rw [h1, h3]
      simp

theorem run_cons (opString : OpCode → String) (durationString : Int → String)
    (w : TracerResult × List CallStack) (e : Event) (es : List Event) :
    run opString durationString w (e :: es)
      = run opString durationString (deliver opString durationString w e) es := rfl

/-- A balanced body delivered to a stack that holds one frame more than the nesting
depth ends with a single frame holding every node. -/
theorem run_balanced_above (opString : OpCode → String) (durationString : Int → String)
    (body : List Event) :
    ∀ (d : Nat) (S ev : List CallStack), balanced d body = true → S.length = d + 1 →
      ∃ x, run opString durationString ({ CallStack := S }, ev) body = ({ CallStack := [x] }, ev)
        ∧ nodeCount x = nodeCountList S + enterCount body := by
  induction body with
  | nil =>
    intro d S ev hb hlen
    have hd : d = 0 := by simpa [balanced] using hb
    subst hd
    match S, hlen with
    | [x], _ => exact ⟨x, rfl, by simp [nodeCountList, enterCount]⟩
  | cons e es ih =>
    intro d S ev hb hlen
    rw [run_cons]
    cases e with
    | start fr dst create input gas value => simp [balanced] at hb
    | finish output gasUsed t err => simp [balanced] at hb
    | state pc op gas cost rData depth err =>
      have hb2 : balanced d es = true := by simpa [balanced] using hb
      exact ih d S ev hb2 hlen
    | fault pc op gas cost depth err =>
      have hb2 : balanced d es = true := by simpa [balanced] using hb
      exact ih d S ev hb2 hlen
    | enter typ fr dst input gas value =>
      have hb2 : balanced (d + 1) es = true := by simpa [balanced] using hb
      obtain ⟨x, hx, hc⟩ := ih (d + 1)
        (S ++ [CallStack.mk (opString typ) fr dst none gas 0 input [] "" [] ""]) ev hb2
        (by simp [hlen])
      refine ⟨x, hx, ?_⟩
      rw [hc, nodeCountList_append]
      simp [nodeCountList, nodeCount, enterCount]
      omega
    | exit output gasUsed err =>
      cases d with
      | zero => simp [balanced] at hb
      | succ d =>
        have hb2 : balanced d es = true := by simpa [balanced] using hb
        obtain ⟨s, parent, top, hS⟩ := exists_two_top S (by omega)
        subst hS
        have hstep : deliver opString durationString
              ({ CallStack := s ++ [parent, top] }, ev) (.exit output gasUsed err)
            = ({ CallStack := s ++ [parent.setCalls (parent.Calls ++ [top])] }, ev) := by
          show (CaptureExit _ output gasUsed err, ev) = _
          congr 1
          have h2 := CaptureExit_two s parent top output gasUsed err
          cases hce : CaptureExit { CallStack := s ++ [parent, top] } output gasUsed err with
          | mk cs =>
            rw [hce] at h2
            exact congrArg TracerResult.mk h2
        rw [hstep]
        obtain ⟨x, hx, hc⟩ := ih d (s ++ [parent.setCalls (parent.Calls ++ [top])]) ev hb2
          (by simp at hlen ⊢; omega)
        refine ⟨x, hx, ?_⟩
        rw [hc, nodeCountList_exit]
        simp [enterCount]

/-- A balanced body delivered inside the first call (the stack holds as many frames as
the nesting depth, at least one) ends with a single frame holding every node. -/
theorem run_balanced_inside (opString : OpCode → String) (durationString : Int → String)
    (body : List Event) :
    ∀ (d : Nat) (S ev : List CallStack), balanced d body = true → S.length = d → 1 ≤ d →
      ∃ x, run opString durationString ({ CallStack := S }, ev) body = ({ CallStack := [x] }, ev)
        ∧ nodeCount x = nodeCountList S + enterCount body := by
  induction body with
  | nil =>
    intro d S ev hb hlen hd
    have hd0 : d = 0 := by simpa [balanced] using hb
    omega
  | cons e es ih =>
    intro d S ev hb hlen hd
    rw [run_cons]
    cases e with
    | start fr dst create input gas value => simp [balanced] at hb
    | finish output gasUsed t err => simp [balanced] at hb
    | state pc op gas cost rData depth err =>
      have hb2 : balanced d es = true := by simpa [balanced] using hb
      exact ih d S ev hb2 hlen hd
    | fault pc op gas cost depth err =>
      have hb2 : balanced d es = true := by simpa [balanced] using hb
      exact ih d S ev hb2 hlen hd
    | enter typ fr dst input gas value =>
      have hb2 : balanced (d + 1) es = true := by simpa [balanced] using hb
      obtain ⟨x, hx, hc⟩ := ih (d + 1)
        (S ++ [CallStack.mk (opString typ) fr dst none gas 0 input [] "" [] ""]) ev hb2
        (by simp [hlen]) (by omega)
      refine ⟨x, hx, ?_⟩
      rw [hc, nodeCountList_append]
      simp [nodeCountList, nodeCount, enterCount]
      omega
    | exit output gasUsed err =>
      cases d with
      | zero => simp [balanced] at hb
      | succ d =>
        have hb2 : balanced d es = true := by simpa [balanced] using hb
        by_cases hd0 : d = 0
        · subst hd0
          have hstep : deliver opString durationString ({ CallStack := S }, ev)
                (.exit output gasUsed err) = ({ CallStack := S }, ev) := by
            show (CaptureExit _ output gasUsed err, ev) = _
            rw [CaptureExit_short _ _ _ _ (by show S.length ≤ 1; omega)]
          rw [hstep]
          obtain ⟨x, hx, hc⟩ :=
            run_balanced_above opString durationString es 0 S ev hb2 (by omega)
          exact ⟨x, hx, by rw [hc]; simp [enterCount]⟩
        · obtain ⟨s, parent, top, hS⟩ := exists_two_top S (by omega)
          subst hS
          have hstep : deliver opString durationString
                ({ CallStack := s ++ [parent, top] }, ev) (.exit output gasUsed err)
              = ({ CallStack := s ++ [parent.setCalls (parent.Calls ++ [top])] }, ev) := by
            show (CaptureExit _ output gasUsed err, ev) = _
            congr 1
            have h2 := CaptureExit_two s parent top output gasUsed err
            cases hce : CaptureExit { CallStack := s ++ [parent, top] } output gasUsed err with
            | mk cs =>
              rw [hce] at h2
              exact congrArg TracerResult.mk h2
          rw [hstep]
          obtain ⟨x, hx, hc⟩ := ih d (s ++ [parent.setCalls (parent.Calls ++ [top])]) ev hb2
            (by simp at hlen ⊢; omega) (by omega)
          refine ⟨x, hx, ?_⟩
          rw [hc, nodeCountList_exit]
          simp [enterCount]

/-- A balanced body delivered to the empty stack left by `CaptureStart`: either it has
no `CaptureEnter` and the stack stays empty, or the stack ends with one frame whose
tree has as many nodes as there were `CaptureEnter` events. -/
theorem run_balanced_start (opString : OpCode → String) (durationString : Int → String)
    (body : List Event) :
    ∀ ev : List CallStack, balanced 0 body = true →
      (enterCount body = 0 ∧
        run opString durationString ({ CallStack := [] }, ev) body = ({ CallStack := [] }, ev))
      ∨ ∃ x, run opString durationString ({ CallStack := [] }, ev) body
            = ({ CallStack := [x] }, ev)
          ∧ nodeCount x = enterCount body := by
  induction body with
  | nil => intro ev _; exact Or.inl ⟨rfl, rfl⟩
  | cons e es ih =>
    intro ev hb
    rw [run_cons]
    cases e with
    | start fr dst create input gas value => simp [balanced] at hb
    | finish output gasUsed t err => simp [balanced] at hb
    | state pc op gas cost rData depth err =>
      have hb2 : balanced 0 es = true := by simpa [balanced] using hb
      exact ih ev hb2
    | fault pc op gas cost depth err =>
      have hb2 : balanced 0 es = true := by simpa [balanced] using hb
      exact ih ev hb2
    | enter typ fr dst input gas value =>
      have hb2 : balanced 1 es = true := by simpa [balanced] using hb
      obtain ⟨x, hx, hc⟩ := run_balanced_inside opString durationString es 1
        [CallStack.mk (opString typ) fr dst none gas 0 input [] "" [] ""] ev hb2 rfl
        (Nat.le_refl 1)
      refine Or.inr ⟨x, hx, ?_⟩
      rw [hc]
      simp [nodeCountList, nodeCount, enterCount]
      omega
    | exit output gasUsed err => simp [balanced] at hb

theorem enterCount_append (l₁ l₂ : List Event) :
    enterCount (l₁ ++ l₂) = enterCount l₁ + enterCount l₂ := by
  induction l₁ with
  | nil => simp [enterCount]
  | cons e es ih =>
    cases e <;> simp [enterCount, ih]
    omega

/-- What the builder sends for a validly-nested sequence: one frame, whose tree has one
node when the sequence has no `CaptureEnter`, and otherwise exactly as many nodes as
there are `CaptureEnter` events (the entered frames; no node stands for the outermost
call). -/
theorem emitted_nodeCount (opString : OpCode → String) (durationString : Int → String)
    (evs : List Event) (h : validlyNested evs = true) :
    (emitted opString durationString evs).map nodeCount
      = [if enterCount evs = 0 then 1 else enterCount evs] := by
  cases evs with
  | nil => simp [validlyNested] at h
  | cons e rest =>
    cases e with
    | start fr dst create input gas value =>
      rcases hl : rest.getLast? with _ | last
      · simp [validlyNested, hl] at h
      · cases last with
        | finish output gasUsed t err =>
          have hb : balanced 0 rest.dropLast = true := by simpa [validlyNested, hl] using h
          have hrest : rest = rest.dropLast ++ [Event.finish output gasUsed t err] := by
            have hne : rest ≠ [] := by
              intro h0
              rw [h0] at hl
              simp at hl
            have h1 := List.dropLast_append_getLast hne
            have h2 : rest.getLast hne = Event.finish output gasUsed t err := by
              have h3 := List.getLast?_eq_getLast rest hne
              rw [hl] at h3
              exact (Option.some.inj h3).symm
            rw [h2] at h1
            exact h1.symm
          have hcount : enterCount (Event.start fr dst create input gas value :: rest)
              = enterCount rest.dropLast := by
            show enterCount rest = _
            conv => lhs; rw [hrest]
            rw [enterCount_append]
            simp [enterCount]
          rw [hcount]
          have hrun : emitted opString durationString
                (Event.start fr dst create input gas value :: rest)
              = (deliver opString durationString
                  (run opString durationString ({ CallStack := [] }, []) rest.dropLast)
                  (Event.finish output gasUsed t err)).2 := by
            unfold emitted
            rw [run_cons]
            conv => lhs; rw [hrest]
            unfold run
            rw [List.foldl_append]
            rfl
          rw [hrun]
          rcases run_balanced_start opString durationString rest.dropLast [] hb with
            ⟨h0, hr⟩ | ⟨x, hr, hc⟩
          · rw [hr, if_pos h0]
            rfl
          · rw [hr]
            have hpos : enterCount rest.dropLast ≠ 0 := by
              rw [← hc, nodeCount_eq]
              omega
            rw [if_neg hpos, ← hc]
            rfl
        | start _ _ _ _ _ _ => simp [validlyNested, hl] at h
        | state _ _ _ _ _ _ _ => simp [validlyNested, hl] at h
        | fault _ _ _ _ _ _ => simp [validlyNested, hl] at h
        | enter _ _ _ _ _ _ => simp [validlyNested, hl] at h
        | exit _ _ _ => simp [validlyNested, hl] at h
    | finish _ _ _ _ => simp [validlyNested] at h
    | state _ _ _ _ _ _ _ => simp [validlyNested] at h
    | fault _ _ _ _ _ _ => simp [validlyNested] at h
    | enter _ _ _ _ _ _ => simp [validlyNested] at h
    | exit _ _ _ => simp [validlyNested] at h

/-- C3 evaluated on start, enter, exit, end: the sequence is validly nested and has one
`CaptureEnter`, yet the frame sent at `CaptureEnd` is the entered frame alone, a tree
of one node and not of two. -/
theorem emitted_oneCall :
    validlyNested oneCall = true
    ∧ enterCount oneCall = 1
    ∧ emitted sampleOpString sampleDurationString oneCall
        = [CallStack.mk "CALL" addrB addrC none 50000 0 [1] [] "" [] ""]
    ∧ (emitted sampleOpString sampleDurationString oneCall).map nodeCount = [1]
    ∧ (emitted sampleOpString sampleDurationString oneCall).map nodeCount
        ≠ [enterCount oneCall + 1] := by
  refine ⟨rfl, rfl, rfl, rfl, ?_⟩
  decide

/-- C8 evaluated on start, enter(B→C), exit, enter(B→D), exit, end: the two calls are
made one after the other at the same nesting level, yet in the frame sent at
`CaptureEnd` the second call is a child of the first. -/
theorem emitted_twoSiblingCalls :
    validlyNested twoSiblingCalls = true
    ∧ emitted sampleOpString sampleDurationString twoSiblingCalls
        = [CallStack.mk "CALL" addrB addrC none 50000 0 [1] [] ""
            [CallStack.mk "STATICCALL" addrB addrD none 40000 0 [4] [] "" [] ""] ""] := by
  refine ⟨rfl, rfl⟩

/-- C11 evaluated on the code.  On start, step, end (no call entered) the frame sent at
`CaptureEnd` carries the `output`, `gasUsed` and duration passed to `CaptureEnd`.  On
start, enter, exit, end, a validly-nested sequence with the same `CaptureEnd`, the
frame sent is the entered frame: its `Output` is empty, its `GasUsed` 0 and its `Time`
empty, not the values passed to `CaptureEnd`. -/
theorem emitted_end_fields :
    validlyNested noCall = true
    ∧ (emitted sampleOpString sampleDurationString noCall).map
        (fun f => (f.Output, f.GasUsed, f.Time)) = [([3], 21000, "1ns")]
    ∧ validlyNested oneCall = true
    ∧ (emitted sampleOpString sampleDurationString oneCall).map
        (fun f => (f.Output, f.GasUsed, f.Time)) = [([], 0, "")]
    ∧ (emitted sampleOpString sampleDurationString oneCall).map
        (fun f => (f.Output, f.GasUsed, f.Time)) ≠ [([3], 21000, sampleDurationString 1)] := by
  refine ⟨rfl, rfl, rfl, rfl, ?_⟩
  decide

/-- C10 (as the code has it): when `CaptureExit` is called with a non-nil error (for
example "out of gas") directly after the `CaptureEnter` of a frame that has a frame
below it on the stack, the frame finalized by that exit, which becomes the last child
of the frame below, is the entered frame with an empty `Error` field (the error's
message is not recorded) and no children, so that a flat entry built by `GethParity`
from a node with that error and no children has an empty error, a populated result and
`SubTraces` 0. -/
theorem CaptureExit_after_CaptureEnter (opString : OpCode → String) (s : List CallStack)
    (parent : CallStack) (typ : OpCode) (from_ to_ : Address) (input : Bytes) (gas : Nat)
    (value : Option Int) (output : Bytes) (gasUsed : Nat) (msg : String) :
    ∃ f : CallStack,
      (CaptureExit (CaptureEnter opString { CallStack := s ++ [parent] } typ from_ to_ input
          gas value) output gasUsed (some msg)).CallStack
        = s ++ [parent.setCalls (parent.Calls ++ [f])]
      ∧ f.Typ = opString typ ∧ f.From = from_ ∧ f.To = to_ ∧ f.Input = input ∧ f.Gas = gas
      ∧ f.Error = ""
      ∧ f.Calls = []
      ∧ (∀ (ToLower : String → String) (node : GethResponse) (a : List Int) (t : String),
          node.Error = f.Error → node.Calls = [] →
          ∃ e, GethParity ToLower node a t = [e] ∧ e.Error = ""
            ∧ e.Result = some { GasUsed := node.GasUsed, Output := node.Output }
            ∧ e.SubTraces = 0) := by
  refine ⟨CallStack.mk (opString typ) from_ to_ none gas 0 input [] "" [] "",
    ?_, rfl, rfl, rfl, rfl, rfl, rfl, rfl, ?_⟩
  · have h : (CaptureEnter opString { CallStack := s ++ [parent] } typ from_ to_ input gas value)
        = { CallStack := s ++ [parent,
            CallStack.mk (opString typ) from_ to_ none gas 0 input [] "" [] ""] } := by
      unfold CaptureEnter
      simp
    rw [h, CaptureExit_two]
  · intro ToLower node a t he hc
    have he0 : node.Error = "" := he
    refine ⟨nodeEntry ToLower node a t, ?_, ?_, ?_, ?_⟩
    · rw [GethParity_eq, hc]
      rfl
    · show (if node.Error = "execution reverted" then "Reverted" else node.Error) = ""
      rw [he0]
      rfl
    · show (if node.Error = "" then some _ else none) = some _
      rw [if_pos he0]
    · show ((FilterPrecompileCalls node.Calls).length : Int) = 0
      rw [hc]
      rfl

/-- C10 fails on start, enter(B→C), enter(C→D), exit with error "out of gas": the frame
finalized by the exit, now the only child of the frame below it, has an empty `Error`. -/
theorem failingInnerCall_error_dropped :
    (run sampleOpString sampleDurationString ({ CallStack := [] }, []) failingInnerCall).1.CallStack
      = [CallStack.mk "CALL" addrB addrC none 50000 0 [1] [] ""
          [CallStack.mk "CALL" addrC addrD none 40000 0 [4] [] "" [] ""] ""]
    ∧ (CallStack.mk "CALL" addrC addrD none 40000 0 [4] [] "" [] "").Error ≠ "out of gas" := by
  refine ⟨rfl, ?_⟩
  decide

theorem setCalls_fields (f : CallStack) (cs : List CallStack) :
    (f.setCalls cs).Typ = f.Typ ∧ (f.setCalls cs).From = f.From ∧ (f.setCalls cs).To = f.To
    ∧ (f.setCalls cs).Value = f.Value ∧ (f.setCalls cs).Gas = f.Gas
    ∧ (f.setCalls cs).GasUsed = f.GasUsed ∧ (f.setCalls cs).Input = f.Input
    ∧ (f.setCalls cs).Output = f.Output ∧ (f.setCalls cs).Time = f.Time
    ∧ (f.setCalls cs).Error = f.Error := by
  cases f
  exact ⟨rfl, rfl, rfl, rfl, rfl, rfl, rfl, rfl, rfl, rfl⟩

/-- C17: on a stack of at least two frames, `s ++ [parent, top]`, `CaptureExit` removes
exactly the top frame and appends it as the last element of the `Calls` of the frame
below it, which is the new top: the depth decreases by one, the frames `s` below the
new top are unchanged, and the new top keeps its earlier children, in front of the
popped frame, and all its other fields. -/
theorem CaptureExit_pops (r : TracerResult) (output : Bytes) (gasUsed : Nat)
    (err : Option String) (h : 2 ≤ r.CallStack.length) :
    ∃ s parent top newTop,
      r.CallStack = s ++ [parent, top]
      ∧ (CaptureExit r output gasUsed err).CallStack = s ++ [newTop]
      ∧ (CaptureExit r output gasUsed err).CallStack.length + 1 = r.CallStack.length
      ∧ newTop.Calls = parent.Calls ++ [top]
      ∧ newTop.Typ = parent.Typ ∧ newTop.From = parent.From ∧ newTop.To = parent.To
      ∧ newTop.Value = parent.Value ∧ newTop.Gas = parent.Gas
      ∧ newTop.GasUsed = parent.GasUsed ∧ newTop.Input = parent.Input
      ∧ newTop.Output = parent.Output ∧ newTop.Time = parent.Time
      ∧ newTop.Error = parent.Error := by
  obtain ⟨s, parent, top, hS⟩ := exists_two_top r.CallStack h
  have hr : r = { CallStack := s ++ [parent, top] } := by
    cases r
    exact congrArg TracerResult.mk hS
  have hexit := CaptureExit_two s parent top output gasUsed err
  rw [← hr] at hexit
  refine ⟨s, parent, top, parent.setCalls (parent.Calls ++ [top]), hS, hexit, ?_,
    setCalls_Calls _ _, setCalls_fields parent _⟩
  rw [hexit, hS]
  simp

/-- C17 on the stack left by start, enter(B→C), enter(C→D): the exit leaves the single
frame B→C, whose only child is the frame C→D. -/
theorem CaptureExit_pops_sample :
    (CaptureExit
        { CallStack := [CallStack.mk "CALL" addrB addrC none 50000 0 [1] [] "" [] "",
                        CallStack.mk "CALL" addrC addrD none 40000 0 [4] [] "" [] ""] }
        [] 40000 none).CallStack
      = [CallStack.mk "CALL" addrB addrC none 50000 0 [1] [] ""
          [CallStack.mk "CALL" addrC addrD none 40000 0 [4] [] "" [] ""] ""]
    ∧ ∃ s parent top newTop,
      [CallStack.mk "CALL" addrB addrC none 50000 0 [1] [] "" [] "",
        CallStack.mk "CALL" addrC addrD none 40000 0 [4] [] "" [] ""] = s ++ [parent, top]
      ∧ (CaptureExit
          { CallStack := [CallStack.mk "CALL" addrB addrC none 50000 0 [1] [] "" [] "",
                          CallStack.mk "CALL" addrC addrD none 40000 0 [4] [] "" [] ""] }
          [] 40000 none).CallStack = s ++ [newTop]
      ∧ newTop.Calls = parent.Calls ++ [top] := by
  refine ⟨rfl, ?_⟩
  obtain ⟨s, parent, top, newTop, h1, h2, _, h4, _⟩ := CaptureExit_pops
    { CallStack := [CallStack.mk "CALL" addrB addrC none 50000 0 [1] [] "" [] "",
                    CallStack.mk "CALL" addrC addrD none 40000 0 [4] [] "" [] ""] }
    [] 40000 none (by decide)
  exact ⟨s, parent, top, newTop, h1, h2, h4⟩

end SubTracer

/-! ## Theorems: the op recorder -/

namespace VMTracer

theorem captureStates_heap (steps : List StateArgs) :
    ∀ m : Machine, (captureStates m steps).heap = m.heap
      ∧ (captureStates m steps).r.CurrentTrace = m.r.CurrentTrace
      ∧ (captureStates m steps).r.StateDB = m.r.StateDB := by
  induction steps with
  | nil => intro m; exact ⟨rfl, rfl, rfl⟩
  | cons s ss ih =>
    intro m
    have h := ih (CaptureState m s.pc s.op s.gas s.cost s.rData s.depth s.err)
    have hstep : captureStates m (s :: ss)
        = captureStates (CaptureState m s.pc s.op s.gas s.cost s.rData s.depth s.err) ss := rfl
    rw [hstep]
    refine ⟨h.1, ?_, ?_⟩
    · rw [h.2.1]
      unfold CaptureState
      by_cases hd : s.depth = 1
      · simp [hd]
      · simp [hd]
    · rw [h.2.2]
      unfold CaptureState
      by_cases hd : s.depth = 1
      · simp [hd]
      · simp [hd]

/-- C7 on the code: after `CaptureStart` and any run of `CaptureState` events (of any
depth, in particular one or more of depth 1), `CaptureEnter` does not succeed: the op
sequence of the current node is still empty, and indexing its last element panics with
index -1. -/
theorem CaptureEnter_after_steps_panics (m : Machine) (from_ to_ : Address) (create : Bool)
    (input : Bytes) (gas : Nat) (value : Option Int) (steps : List StateArgs)
    (typ : OpCode) (from2 to2 : Address) (input2 : Bytes) (gas2 : Nat) (value2 : Option Int) :
    CaptureEnter (captureStates (CaptureStart m from_ to_ create input gas value) steps)
        typ from2 to2 input2 gas2 value2
      = .error "index out of range [-1]" := by
  obtain ⟨hheap, hcur, _⟩ :=
    captureStates_heap steps (CaptureStart m from_ to_ create input gas value)
  unfold CaptureEnter
  rw [hcur, hheap]
  have hc : (CaptureStart m from_ to_ create input gas value).r.CurrentTrace
      = some m.heap.length := rfl
  have hh : (CaptureStart m from_ to_ create input gas value).heap
      = m.heap ++ [{ Code := m.r.StateDB to_, Ops := [], parent := none }] := rfl
  rw [hc, hh]
  simp [List.getElem_append_right]

/-- C12 on the code: `CaptureStart` empties `OpCodes`, `Costs`, `Depth`, `ErrorOps` and
`GasUsed` but leaves `PCs` as it was.  On a tracer that has already recorded a depth-1
step at pc 7, `PCs` is `[7]` after the second `CaptureStart`, and after one more
depth-1 step and `Result` the count is 1 and `Costs` has one entry while `PCs` has
two. -/
theorem CaptureStart_keeps_PCs :
    (∀ (m : Machine) (fr dst : Address) (create : Bool) (input : Bytes) (gas : Nat)
        (value : Option Int),
        (CaptureStart m fr dst create input gas value).r.OpCodes = []
        ∧ (CaptureStart m fr dst create input gas value).r.Costs = []
        ∧ (CaptureStart m fr dst create input gas value).r.Depth = []
        ∧ (CaptureStart m fr dst create input gas value).r.ErrorOps = []
        ∧ (CaptureStart m fr dst create input gas value).r.GasUsed = []
        ∧ (CaptureStart m fr dst create input gas value).r.PCs = m.r.PCs)
    ∧ (recordAll { heap := [], r := newTracer sampleStateDB } (twoStarts.take 3)).r.PCs = [7]
    ∧ (Result (recordAll { heap := [], r := newTracer sampleStateDB } twoStarts)).1.r.Count = 1
    ∧ (Result (recordAll { heap := [], r := newTracer sampleStateDB } twoStarts)).1.r.Costs = [5]
    ∧ (Result (recordAll { heap := [], r := newTracer sampleStateDB } twoStarts)).1.r.PCs
        = [7, 0] := by
  refine ⟨?_, rfl, rfl, rfl, rfl⟩
  intro m fr dst create input gas value
  exact ⟨rfl, rfl, rfl, rfl, rfl, rfl⟩

/-- C16: `CaptureState` with depth 1 appends the opcode to `OpCodes`, the cost to `Costs`
and the pc to `PCs`; with any other depth it leaves the three unchanged.  In both cases
it appends the depth to `Depth` and changes nothing else: no other field of the tracer
and no allocated `VMTrace`. -/
theorem CaptureState_effect (m : Machine) (pc : Nat) (op : OpCode) (gas cost : Nat)
    (rData : Bytes) (depth : Int) (err : Option String) :
    (CaptureState m pc op gas cost rData depth err).r.OpCodes
        = (if depth = 1 then m.r.OpCodes ++ [op] else m.r.OpCodes)
    ∧ (CaptureState m pc op gas cost rData depth err).r.Costs
        = (if depth = 1 then m.r.Costs ++ [cost] else m.r.Costs)
    ∧ (CaptureState m pc op gas cost rData depth err).r.PCs
        = (if depth = 1 then m.r.PCs ++ [pc] else m.r.PCs)
    ∧ (CaptureState m pc op gas cost rData depth err).r.Depth = m.r.Depth ++ [depth]
    ∧ (CaptureState m pc op gas cost rData depth err).heap = m.heap
    ∧ (CaptureState m pc op gas cost rData depth err).r.StateDB = m.r.StateDB
    ∧ (CaptureState m pc op gas cost rData depth err).r.Output = m.r.Output
    ∧ (CaptureState m pc op gas cost rData depth err).r.Cost = m.r.Cost
    ∧ (CaptureState m pc op gas cost rData depth err).r.PC = m.r.PC
    ∧ (CaptureState m pc op gas cost rData depth err).r.Greeting = m.r.Greeting
    ∧ (CaptureState m pc op gas cost rData depth err).r.Ops = m.r.Ops
    ∧ (CaptureState m pc op gas cost rData depth err).r.ErrorOps = m.r.ErrorOps
    ∧ (CaptureState m pc op gas cost rData depth err).r.GasUsed = m.r.GasUsed
    ∧ (CaptureState m pc op gas cost rData depth err).r.Count = m.r.Count
    ∧ (CaptureState m pc op gas cost rData depth err).r.CountTwo = m.r.CountTwo
    ∧ (CaptureState m pc op gas cost rData depth err).r.CountThree = m.r.CountThree
    ∧ (CaptureState m pc op gas cost rData depth err).r.CountFour = m.r.CountFour
    ∧ (CaptureState m pc op gas cost rData depth err).r.CountFive = m.r.CountFive
    ∧ (CaptureState m pc op gas cost rData depth err).r.CurrentTrace = m.r.CurrentTrace := by
  unfold CaptureState
  by_cases hd : depth = 1
  · simp [hd]
  · simp [hd]

/-- C16 on a fresh tracer: a step at depth 1 is recorded in `OpCodes`, `Costs`, `PCs` and
`Depth`; a step at depth 2 only in `Depth`. -/
theorem CaptureState_effect_sample :
    (CaptureState { heap := [], r := newTracer sampleStateDB } 7 96 100000 3 [] 1 none).r.OpCodes
      = [96]
    ∧ (CaptureState { heap := [], r := newTracer sampleStateDB } 7 96 100000 3 [] 1 none).r.Costs
      = [3]
    ∧ (CaptureState { heap := [], r := newTracer sampleStateDB } 7 96 100000 3 [] 1 none).r.PCs
      = [7]
    ∧ (CaptureState { heap := [], r := newTracer sampleStateDB } 7 96 100000 3 [] 1 none).r.Depth
      = [1]
    ∧ (CaptureState { heap := [], r := newTracer sampleStateDB } 7 96 100000 3 [] 2 none).r.PCs
      = []
    ∧ (CaptureState { heap := [], r := newTracer sampleStateDB } 7 96 100000 3 [] 2 none).r.Depth
      = ([] : List Int) ++ [2] :=
  ⟨rfl, rfl, rfl, rfl, rfl,
    (CaptureState_effect { heap := [], r := newTracer sampleStateDB } 7 96 100000 3 [] 2
      none).2.2.2.1⟩

theorem record_lengths (m : Machine) (e : RecorderEvent)
    (h : m.r.OpCodes.length = m.r.Costs.length ∧ m.r.Costs.length ≤ m.r.PCs.length) :
    (record m e).r.OpCodes.length = (record m e).r.Costs.length
    ∧ (record m e).r.Costs.length ≤ (record m e).r.PCs.length := by
  cases e with
  | start fr dst create input gas value =>
    show ([] : List OpCode).length = ([] : List Nat).length
      ∧ ([] : List Nat).length ≤ m.r.PCs.length
    simp
  | state s =>
    show (CaptureState m s.pc s.op s.gas s.cost s.rData s.depth s.err).r.OpCodes.length
        = (CaptureState m s.pc s.op s.gas s.cost s.rData s.depth s.err).r.Costs.length
      ∧ (CaptureState m s.pc s.op s.gas s.cost s.rData s.depth s.err).r.Costs.length
        ≤ (CaptureState m s.pc s.op s.gas s.cost s.rData s.depth s.err).r.PCs.length
    unfold CaptureState
    by_cases hd : s.depth = 1
    · simp [hd]
      omega
    · simp [hd]
      omega
  | fault pc op gas cost depth err => exact h
  | finish output gasUsed t err => exact h

theorem recordAll_lengths (evs : List RecorderEvent) :
    ∀ m : Machine,
      (m.r.OpCodes.length = m.r.Costs.length ∧ m.r.Costs.length ≤ m.r.PCs.length) →
      (recordAll m evs).r.OpCodes.length = (recordAll m evs).r.Costs.length
      ∧ (recordAll m evs).r.Costs.length ≤ (recordAll m evs).r.PCs.length := by
  induction evs with
  | nil => intro m h; exact h
  | cons e es ih =>
    intro m h
    exact ih (record m e) (record_lengths m e h)

/-- The loop of `ReplayTransaction` does not panic when every index it visits is within
`Costs` and `PCs`; it then performs the two stores at each index in turn. -/
theorem replayLoop_ok (costs pcs : List Nat) (idxs : List Nat) :
    ∀ ops : List Ops, (∀ i ∈ idxs, i < costs.length ∧ i < pcs.length) →
      replayLoop costs pcs idxs ops
        = .ok (idxs.foldl
            (fun o i => (o.modify (fun x => { x with Cost := costs.getD i 0 }) i).modify
              (fun x => { x with PC := pcs.getD i 0 }) i) ops) := by
  induction idxs with
  | nil => intro ops _; rfl
  | cons i rest ih =>
    intro ops h
    have hi := h i (List.mem_cons_self _ _)
    have hc : costs[i]? = some (costs.getD i 0) := by
      rw [List.getD_eq_getElem?_getD, List.getElem?_eq_getElem hi.1]
      rfl
    have hp : pcs[i]? = some (pcs.getD i 0) := by
      rw [List.getD_eq_getElem?_getD, List.getElem?_eq_getElem hi.2]
      rfl
    rw [replayLoop, hc, hp]
    simp only []
    rw [ih _ (fun j hj => h j (List.mem_cons_of_mem _ hj))]
    rfl

/-- The content of the slice after the loop has visited the indices below `k`. -/
theorem foldl_range_stores (costs pcs : List Nat) (n : Nat) :
    ∀ k, k ≤ n → ∀ j,
      ((List.range k).foldl
          (fun o i => (o.modify (fun x => { x with Cost := costs.getD i 0 }) i).modify
            (fun x => { x with PC := pcs.getD i 0 }) i)
          (List.replicate n ({ Cost := 0, Ex := "", PC := 0, Sub := none } : Ops)))[j]?
        = if j < k then
            some { Cost := costs.getD j 0, Ex := "", PC := pcs.getD j 0, Sub := none }
          else if j < n then some { Cost := 0, Ex := "", PC := 0, Sub := none }
          else none := by
  intro k
  induction k with
  | zero =>
    intro _ j
    simp [List.getElem?_replicate]
  | succ k ih =>
    intro hk j
    rw [List.range_succ, List.foldl_append]
    simp only [List.foldl_cons, List.foldl_nil]
    rw [List.getElem?_modify, List.getElem?_modify, ih (by omega) j]
    by_cases hjk : j = k
    · subst hjk
      have h1 : ¬ j < j := Nat.lt_irrefl j
      have h2 : j < n := by omega
      simp [h1, h2]
    · by_cases hlt : j < k
      · have h3 : j < k + 1 := by omega
        have h4 : ¬ k = j := fun h => hjk h.symm
        simp [hlt, h3, h4]
      · have h3 : ¬ j < k + 1 := by omega
        have h4 : ¬ k = j := fun h => hjk h.symm
        by_cases hn : j < n
        · simp [hlt, h3, h4, hn]
        · simp [hlt, h3, h4, hn]

/-- C19: on a freshly constructed tracer, after every sequence of `CaptureStart`,
`CaptureState`, `CaptureFault` and `CaptureEnd` events (so after every event of a run)
`OpCodes` and `Costs` have the same length, which is at most the length of `PCs`.
After `Result` the value `Count` is therefore at most the length of `Costs` and of
`PCs`, and the loop of `ReplayTransaction` run on these fields does not index out of
range: it yields `Count` op entries, the `j`-th holding `Costs[j]` and `PCs[j]`. -/
theorem recorder_lengths_invariant (sdb : Address → Bytes) (heap : List VMTrace)
    (evs : List RecorderEvent) :
    (∀ k : Nat,
        (recordAll { heap := heap, r := newTracer sdb } (evs.take k)).r.OpCodes.length
          = (recordAll { heap := heap, r := newTracer sdb } (evs.take k)).r.Costs.length
        ∧ (recordAll { heap := heap, r := newTracer sdb } (evs.take k)).r.Costs.length
          ≤ (recordAll { heap := heap, r := newTracer sdb } (evs.take k)).r.PCs.length)
    ∧ (Result (recordAll { heap := heap, r := newTracer sdb } evs)).1.r.Count
        ≤ ((Result (recordAll { heap := heap, r := newTracer sdb } evs)).1.r.Costs.length : Int)
    ∧ (Result (recordAll { heap := heap, r := newTracer sdb } evs)).1.r.Count
        ≤ ((Result (recordAll { heap := heap, r := newTracer sdb } evs)).1.r.PCs.length : Int)
    ∧ ∃ ops,
        replayOps (Result (recordAll { heap := heap, r := newTracer sdb } evs)).1.r.Count
            (Result (recordAll { heap := heap, r := newTracer sdb } evs)).1.r.Costs
            (Result (recordAll { heap := heap, r := newTracer sdb } evs)).1.r.PCs
          = .ok ops
        ∧ (ops.length : Int)
          = (Result (recordAll { heap := heap, r := newTracer sdb } evs)).1.r.Count
        ∧ ∀ j, j < ops.length → ops[j]? = some
            { Cost := (Result (recordAll { heap := heap, r := newTracer sdb } evs)).1.r.Costs.getD
                j 0,
              Ex := "",
              PC := (Result (recordAll { heap := heap, r := newTracer sdb } evs)).1.r.PCs.getD
                j 0,
              Sub := none } := by
  have hfresh : ({ heap := heap, r := newTracer sdb } : Machine).r.OpCodes.length
        = ({ heap := heap, r := newTracer sdb } : Machine).r.Costs.length
      ∧ ({ heap := heap, r := newTracer sdb } : Machine).r.Costs.length
        ≤ ({ heap := heap, r := newTracer sdb } : Machine).r.PCs.length :=
    ⟨rfl, Nat.le_refl _⟩
  have hinv := recordAll_lengths evs _ hfresh
  generalize recordAll { heap := heap, r := newTracer sdb } evs = m at hinv
  have hcount : (Result m).1.r.Count = (m.r.OpCodes.length : Int) := rfl
  have hcosts : (Result m).1.r.Costs = m.r.Costs := rfl
  have hpcs : (Result m).1.r.PCs = m.r.PCs := rfl
  rw [hcount, hcosts, hpcs]
  refine ⟨fun k => recordAll_lengths (evs.take k) _ hfresh, ?_, ?_, ?_⟩
  · exact_mod_cast Nat.le_of_eq hinv.1
  · have h := hinv.2
    rw [← hinv.1] at h
    exact_mod_cast h
  · have hnn : ¬ ((m.r.OpCodes.length : Int) < 0) := by omega
    have hbound : ∀ i ∈ List.range m.r.OpCodes.length,
        i < m.r.Costs.length ∧ i < m.r.PCs.length := by
      intro i hi
      have := List.mem_range.mp hi
      omega
    refine ⟨(List.range m.r.OpCodes.length).foldl
        (fun o i => (o.modify (fun x => { x with Cost := m.r.Costs.getD i 0 }) i).modify
          (fun x => { x with PC := m.r.PCs.getD i 0 }) i)
        (List.replicate m.r.OpCodes.length { Cost := 0, Ex := "", PC := 0, Sub := none }),
      ?_, ?_, ?_⟩
    · unfold replayOps
      rw [if_neg hnn, Int.toNat_ofNat]
      exact replayLoop_ok m.r.Costs m.r.PCs _ _ hbound
    · have hlen : ∀ (idxs : List Nat) (o : List Ops),
          (idxs.foldl
            (fun o i => (o.modify (fun x => { x with Cost := m.r.Costs.getD i 0 }) i).modify
              (fun x => { x with PC := m.r.PCs.getD i 0 }) i) o).length = o.length := by
        intro idxs
        induction idxs with
        | nil => intro o; rfl
        | cons i rest ih => intro o; rw [List.foldl_cons, ih]; simp
      rw [hlen]
      simp
    · intro j hj
      rw [foldl_range_stores m.r.Costs m.r.PCs m.r.OpCodes.length m.r.OpCodes.length
        (Nat.le_refl _) j]
      have hlen : ∀ (idxs : List Nat) (o : List Ops),
          (idxs.foldl
            (fun o i => (o.modify (fun x => { x with Cost := m.r.Costs.getD i 0 }) i).modify
              (fun x => { x with PC := m.r.PCs.getD i 0 }) i) o).length = o.length := by
        intro idxs
        induction idxs with
        | nil => intro o; rfl
        | cons i rest ih => intro o; rw [List.foldl_cons, ih]; simp
      rw [hlen] at hj
      simp at hj
      rw [if_pos hj]

/-- C19 on `twoStarts`: after `Result` the count is 1, `Costs` is `[5]` and `PCs` is
`[7, 0]`; the loop of `ReplayTransaction` succeeds and yields one op entry, holding
`Costs[0]` and `PCs[0]`. -/
theorem recorder_lengths_invariant_twoStarts :
    replayOps
        (Result (recordAll { heap := [], r := newTracer sampleStateDB } twoStarts)).1.r.Count
        (Result (recordAll { heap := [], r := newTracer sampleStateDB } twoStarts)).1.r.Costs
        (Result (recordAll { heap := [], r := newTracer sampleStateDB } twoStarts)).1.r.PCs
      = .ok [{ Cost := 5, Ex := "", PC := 7, Sub := none }]
    ∧ (Result (recordAll { heap := [], r := newTracer sampleStateDB } twoStarts)).1.r.Count
        ≤ ((Result (recordAll { heap := [], r := newTracer sampleStateDB }
            twoStarts)).1.r.PCs.length : Int) :=
  ⟨rfl, (recorder_lengths_invariant sampleStateDB [] twoStarts).2.2.1⟩

end VMTracer

/-! ## Theorems: `Result` -/

/-- C15 (as the code has it): `Result` never returns an error, whether or not a
`CaptureEnd` has been received.  In the subTracer builder it returns the empty string
and a nil error in every state reached by any event sequence (the frame is only sent
on the feed, by `CaptureEnd`); in the op recorder it sets the five counters, leaves
everything else as it was and returns the tracer with a nil error. -/
theorem Result_never_errors (opString : OpCode → String) (durationString : Int → String)
    (w : SubTracer.TracerResult × List SubTracer.CallStack) (evs : List SubTracer.Event)
    (m : VMTracer.Machine) :
    SubTracer.Result (SubTracer.run opString durationString w evs).1 = ("", none)
    ∧ (VMTracer.Result m).2 = none
    ∧ (VMTracer.Result m).1.heap = m.heap
    ∧ (VMTracer.Result m).1.r
        = { m.r with
            Count := (m.r.OpCodes.length : Int), CountTwo := (m.r.Ops.length : Int),
            CountThree := (m.r.Depth.length : Int), CountFour := (m.r.ErrorOps.length : Int),
            CountFive := (m.r.GasUsed.length : Int) } :=
  ⟨rfl, rfl, rfl, rfl⟩

/-- C15 fails on the builder: after start, enter, enter, exit (no `CaptureEnd` yet)
`Result` returns a nil error, and after the complete sequence start, enter, exit, end it
returns the empty string, not a frame. -/
theorem Result_before_end_no_error :
    (SubTracer.Result
        (SubTracer.run SubTracer.sampleOpString SubTracer.sampleDurationString
          ({ CallStack := [] }, []) SubTracer.failingInnerCall).1).2 = none
    ∧ (SubTracer.Result
        (SubTracer.run SubTracer.sampleOpString SubTracer.sampleDurationString
          ({ CallStack := [] }, []) SubTracer.oneCall).1) = ("", none) :=
  ⟨rfl, rfl⟩

end PlugethPlugins
